import Mathlib

/-!
# Verification development for `tools/driver/cling.cpp` (Urho3D bootstrap driver)

Shallow embedding of the path normaliser (`ReplaceString`, `fixPath`), the recursive
source scanner (`getSourceCodeFilesInDirectory`), the precondition checks, the code
synthesiser and the staged execution driver (`Urho3DMain`) and the diagnostic
reconciler (`checkDiagErrors`).

Conventions of the embedding:
* `std::string` is `Str = List Char`; string literals are written `"...".toList`.
* A `while` loop whose termination is itself under study (`ReplaceString`) is a
  fuel-indexed function returning `Option`; `none` means "not finished within the fuel".
* The interpreter is an abstract collaborator (`Interpreter σ`) acting on an abstract
  state `σ`; every call made on it is also recorded in a `Session` log.
* The file system is a snapshot (`FileSystem`): which paths are directories (with what
  the directory iterator enumerates below them) and which are file-like.
-/

namespace Cling

/-- The embedding of `std::string`. -/
abbrev Str := List Char

/-! ## Path normaliser (lines 77-89) -/

/-- Scan of `std::string::find`: `cs` is the part of the subject from offset `off` on;
the result is the lowest offset at which `search` occurs, or `none` for `npos`. -/
def findFrom (search : Str) : Str → Nat → Option Nat
  | [], off => if search.isPrefixOf [] then some off else none
  | c :: cs, off =>
    if search.isPrefixOf (c :: cs) then some off else findFrom search cs (off + 1)

/-- The call `subject.find(search, pos)` of `std::string`: the lowest position `p ≥ pos` with
`search` occurring at `p`, `none` standing for `npos` (also when `pos > subject.size()`). -/
def find (subject search : Str) (pos : Nat) : Option Nat :=
  if pos ≤ subject.length then findFrom search (subject.drop pos) pos else none

/-- The call `subject.replace(pos, len, replace)` of `std::string`, for `pos + len ≤ size`. -/
def replaceAt (subject : Str) (pos len : Nat) (replace : Str) : Str :=
  subject.take pos ++ replace ++ subject.drop (pos + len)

/-- One evaluation of the loop condition and body of `ReplaceString` (lines 80-83) on the
loop state `(subject, pos)`: `none` when `find` gives `npos` (the loop exits), otherwise
the state after `subject.replace(pos, search.length(), replace); pos += replace.length()`. -/
def ReplaceStringIter (search replace : Str) (subject : Str) (pos : Nat) : Option (Str × Nat) :=
  match find subject search pos with
  | none => none
  | some p => some (replaceAt subject p search.length replace, p + replace.length)

/-- The `while` loop of `ReplaceString` (lines 80-83) run for at most `fuel` evaluations of
its condition: `some s` when the loop exits with subject `s`, `none` when the fuel is used up
before `find` returns `npos`. -/
def ReplaceStringLoop (search replace : Str) : Nat → Str → Nat → Option Str
  | 0, _, _ => none
  | fuel + 1, subject, pos =>
    match ReplaceStringIter search replace subject pos with
    | none => some subject
    | some (subject1, pos1) => ReplaceStringLoop search replace fuel subject1 pos1

/-- `ReplaceString(subject, search, replace)` (lines 77-84), started at `pos = 0`, with the
fuel `subject.size() + 1`; the value is the final `subject`. For a non-empty `search` this
fuel always suffices (`ReplaceStringLoop_halts`); for an empty one no fuel does. -/
def ReplaceString (subject search replace : Str) : Option Str :=
  ReplaceStringLoop search replace (subject.length + 1) subject 0

/-- `fixPath(path)` (lines 86-89): `ReplaceString(path, "\\", "/")` followed by
`ReplaceString(path, "//", "/")`. Both search strings are non-empty, so both calls halt
(`fixPath_runs`) and the `getD` defaults are never taken. -/
def fixPath (path : Str) : Str :=
  let path1 := (ReplaceString path "\\".toList "/".toList).getD path
  (ReplaceString path1 "//".toList "/".toList).getD path1

/-- Closed form of the first pass of `fixPath`: every backslash becomes a slash
(`ReplaceString_backslash`). -/
def slashify (path : Str) : Str :=
  path.map fun c => if c = '\\' then '/' else c

/-- Closed form of the second pass of `fixPath`: scanning from the left, each pair of
adjacent slashes is replaced by one slash and the scan resumes behind that slash
(`ReplaceString_doubleSlash`). -/
def collapse : Str → Str
  | [] => []
  | [c] => [c]
  | c :: d :: rest =>
    if c = '/' ∧ d = '/' then '/' :: collapse rest else c :: collapse (d :: rest)

/-! ## File system snapshot and classifier (lines 60-74) -/

/-- What `llvm::sys::fs::directory_iterator` enumerates for a directory, in iteration order,
each entry with the classification the scanner computes for it (lines 130-135):
`dir` when `is_directory` holds (with the enumeration of that directory), `file` when it
does not and `is_regular_file` or `is_symlink_file` holds, `other` when none holds. The
name is `llvm::sys::path::filename(File->path())`. The tree is finite and readable:
`children` is what the iterator enumerates when the scanner opens that directory under
its normalised path, and an iteration that stops on an error is a listing that ends
there. -/
inductive DirListing where
  | nil : DirListing
  | dir (name : Str) (children : DirListing) (rest : DirListing) : DirListing
  | file (name : Str) (rest : DirListing) : DirListing
  | other (name : Str) (rest : DirListing) : DirListing
  deriving DecidableEq, Repr

/-- A snapshot of the file system as the driver observes it. `directory p` is `some l`
exactly when `is_directory(p)` holds, `l` being what iterating `p` enumerates. -/
structure FileSystem where
  directory : Str → Option DirListing
  is_regular_file : Str → Bool
  is_symlink_file : Str → Bool

/-- `isDir(path)` (lines 60-65). -/
def isDir (fs : FileSystem) (path : Str) : Bool :=
  (fs.directory path).isSome

/-- `isFile(path)` (lines 67-74): regular file or symlink file. -/
def isFile (fs : FileSystem) (path : Str) : Bool :=
  fs.is_regular_file path || fs.is_symlink_file path

/-- `StringRef::find_last_of(c)`: index of the last occurrence of `c`, `none` for `npos`. -/
def find_last_of : Str → Char → Option Nat
  | [], _ => none
  | x :: xs, c =>
    match find_last_of xs c with
    | some i => some (i + 1)
    | none => if x = c then some 0 else none

/-- `llvm::sys::path::extension` applied to a file name: the part from the last `.` on,
empty when there is no `.` and for the names `.` and `..`. -/
def extension (fname : Str) : Str :=
  match find_last_of fname '.' with
  | none => []
  | some pos => if fname = ".".toList ∨ fname = "..".toList then [] else fname.drop pos

/-! ## Interpreter collaborator -/

/-- Modelled from the spec: `CompilationResult ∈ {Success, Failure}` (section 6); the enum
`cling::Interpreter::CompilationResult` is declared outside this source file, and the
driver only compares its value with `kFailure`. -/
inductive CompilationResult where
  | kSuccess
  | kFailure
  deriving DecidableEq, Repr, Inhabited

/-- Modelled from the spec: the collaborator operations of section 6 that the driver
calls (`add-include-path`, `load-file`, `submit`), that is `Interp.AddIncludePath`,
`Interp.loadFile` and `MetaProcessor::process`, acting on an abstract interpreter state
`σ`. Their implementations are outside this source file, so they are parameters. -/
structure Interpreter (σ : Type) where
  AddIncludePath : σ → Str → σ
  loadFile : σ → Str → σ
  process : σ → Str → CompilationResult × σ

/-- The interpreter state together with a record of every call made on it and of what
was written to `llvm::errs()`. -/
structure Session (σ : Type) where
  interp : σ
  includePaths : List Str
  loadedFiles : List Str
  submitted : List (Str × CompilationResult)
  errs : List Str

/-- A session on which nothing has been called yet. -/
def Session.start {σ : Type} (s : σ) : Session σ :=
  { interp := s, includePaths := [], loadedFiles := [], submitted := [], errs := [] }

/-- The call `Interp.AddIncludePath(path)`. -/
def Session.AddIncludePath {σ : Type} (I : Interpreter σ) (S : Session σ) (path : Str) :
    Session σ :=
  { S with interp := I.AddIncludePath S.interp path, includePaths := S.includePaths ++ [path] }

/-- The call `Interp.loadFile(path)`. -/
def Session.loadFile {σ : Type} (I : Interpreter σ) (S : Session σ) (path : Str) : Session σ :=
  { S with interp := I.loadFile S.interp path, loadedFiles := S.loadedFiles ++ [path] }

/-- The call `Ui.getMetaProcessor()->process(text, Result, 0)`; the first component is
the value left in `Result`. -/
def Session.process {σ : Type} (I : Interpreter σ) (S : Session σ) (text : Str) :
    CompilationResult × Session σ :=
  let r := I.process S.interp text
  (r.1, { S with interp := r.2, submitted := S.submitted ++ [(text, r.1)] })

/-- The statement `llvm::errs() << msg`. -/
def Session.err {σ : Type} (S : Session σ) (msg : Str) : Session σ :=
  { S with errs := S.errs ++ [msg] }

/-- Modelled from the spec: the options `Urho3DMain` reads through `Interp.getOptions()`
(`get-options()` of section 6); `cling::InvocationOptions` is declared outside this
source file. -/
structure InvocationOptions where
  Urho3DHome : Str
  Defines : List Str
  PathsToLoad : List Str
  Urho3DResourcePrefixPath : Str
  ApplicationClassName : Str

/-! ## Recursive source scanner (lines 122-162) -/

/-- The state threaded through the scan: the interpreter session and the two output
vectors `files` and `headers`. -/
structure ScanState (σ : Type) where
  session : Session σ
  files : List Str
  headers : List Str

/-- `getSourceCodeFilesInDirectory(Interp, path, files, headers)` (lines 122-162), the
loop running over the enumeration of `path`. -/
def getSourceCodeFilesInDirectory {σ : Type} (I : Interpreter σ) :
    Str → DirListing → ScanState σ → ScanState σ
  | _, .nil, st => st
  | path, .dir dirName children rest, st =>
    let childDirName := fixPath (path ++ "/".toList ++ dirName)
    let st1 := { st with session := st.session.AddIncludePath I childDirName }
    let st2 := getSourceCodeFilesInDirectory I childDirName children st1
    getSourceCodeFilesInDirectory I path rest st2
  | path, .file FileName rest, st =>
    let ext := extension FileName
    if ext = ".cpp".toList ∨ ext = ".cc".toList ∨ ext = ".c".toList then
      let fullPath := fixPath (path ++ "/".toList ++ FileName)
      getSourceCodeFilesInDirectory I path rest { st with files := st.files ++ [fullPath] }
    else if ext = ".h".toList ∨ ext = ".hpp".toList then
      let fullPath := fixPath (path ++ "/".toList ++ FileName)
      getSourceCodeFilesInDirectory I path rest { st with headers := st.headers ++ [fullPath] }
    else
      getSourceCodeFilesInDirectory I path rest st
  | path, .other _ rest, st => getSourceCodeFilesInDirectory I path rest st

/-! ## Precondition checks (lines 164-226) -/

/-- `EXIT_SUCCESS` of `<cstdlib>`. -/
def EXIT_SUCCESS : Int := 0

/-- `EXIT_FAILURE` of `<cstdlib>`. -/
def EXIT_FAILURE : Int := 1

/-- `addIncludePath(Interp, path)` (lines 164-173). -/
def addIncludePath {σ : Type} (fs : FileSystem) (I : Interpreter σ) (S : Session σ) (path : Str) :
    Bool × Session σ :=
  if isDir fs path then (true, S.AddIncludePath I path)
  else (false, S.err (path ++ " does not exist \n".toList))

/-- `loadFile(Interp, path)` (lines 175-184). -/
def loadFile {σ : Type} (fs : FileSystem) (I : Interpreter σ) (S : Session σ) (path : Str) :
    Bool × Session σ :=
  if isFile fs path then (true, S.loadFile I path)
  else (false, S.err (path ++ " does not exist \n".toList))

/-- The target the driver is compiled for: which branch of the `#if` blocks at lines
214-224 and 245-250 is compiled in. -/
inductive Platform where
  | windows
  | apple
  | other
  deriving DecidableEq, Repr

/-- The variable `urho3dLib` (lines 215, 219, 222). -/
def urho3dLib (plat : Platform) (Urho3DHome : Str) : Str :=
  match plat with
  | .windows => Urho3DHome ++ "/bin/Urho3D.dll".toList
  | .apple => Urho3DHome ++ "/lib/LibUrho3D.dylib".toList
  | .other => Urho3DHome ++ "/lib/libUrho3D.so".toList

/-- The checks on a non-empty, already normalised `Urho3DHome` (lines 200-224). The Boolean
is `false` exactly when the source executes one of the `return EXIT_FAILURE` there. -/
def checkUrho3DHome {σ : Type} (plat : Platform) (fs : FileSystem) (I : Interpreter σ)
    (Urho3DHome : Str) (S : Session σ) : Bool × Session σ :=
  if !isDir fs Urho3DHome then
    (false, S.err (Urho3DHome ++ " does not exist \n".toList))
  else
    let r1 := addIncludePath fs I S (Urho3DHome ++ "/include".toList)
    if !r1.1 then (false, r1.2) else
    let r2 := addIncludePath fs I r1.2 (Urho3DHome ++ "/include/Urho3D".toList)
    if !r2.1 then (false, r2.2) else
    let r3 := addIncludePath fs I r2.2 (Urho3DHome ++ "/include/Urho3D/ThirdParty".toList)
    if !r3.1 then (false, r3.2) else
    let r4 := addIncludePath fs I r3.2 (Urho3DHome ++ "/include/Urho3D/ThirdParty/Bullet".toList)
    if !r4.1 then (false, r4.2) else
    let r5 := loadFile fs I r4.2 (urho3dLib plat Urho3DHome)
    if !r5.1 then (false, r5.2) else
    (true, r5.2)

/-- The session after a precondition block that passes: the four registrations and the
load, in the order of lines 205-223. -/
def homeSession {σ : Type} (plat : Platform) (I : Interpreter σ) (home : Str) (S : Session σ) :
    Session σ :=
  ((((S.AddIncludePath I (home ++ "/include".toList)).AddIncludePath I
    (home ++ "/include/Urho3D".toList)).AddIncludePath I
    (home ++ "/include/Urho3D/ThirdParty".toList)).AddIncludePath I
    (home ++ "/include/Urho3D/ThirdParty/Bullet".toList)).loadFile I (urho3dLib plat home)

/-- The precondition of the staged sequence: no framework home is configured, or its
normalised form is a directory, the four required subpaths are directories and the
platform runtime artifact is file-like. -/
def preconditionsPass (plat : Platform) (fs : FileSystem) (Opts : InvocationOptions) : Prop :=
  Opts.Urho3DHome = [] ∨
    (isDir fs (fixPath Opts.Urho3DHome) = true ∧
     isDir fs (fixPath Opts.Urho3DHome ++ "/include".toList) = true ∧
     isDir fs (fixPath Opts.Urho3DHome ++ "/include/Urho3D".toList) = true ∧
     isDir fs (fixPath Opts.Urho3DHome ++ "/include/Urho3D/ThirdParty".toList) = true ∧
     isDir fs (fixPath Opts.Urho3DHome ++ "/include/Urho3D/ThirdParty/Bullet".toList) = true ∧
     isFile fs (urho3dLib plat (fixPath Opts.Urho3DHome)) = true)

/-! ## Code synthesiser (lines 229-295) -/

/-- The variable `NL` (line 193). -/
def NL : Str := "\n".toList

/-- The nine fixed macro lines (lines 229-237), in order, each without its `NL`. -/
def fixedDefines : List Str :=
  [ "#define URHO3D_CLING".toList,
    "#define URHO3D_API".toList,
    "#define URHO3D_ANGELSCRIPT".toList,
    "#define URHO3D_LUA".toList,
    "#define URHO3D_NAVIGATION".toList,
    "#define URHO3D_NETWORK".toList,
    "#define DURHO3D_URHO2D".toList,
    "#define URHO3D_PHYSICS".toList,
    "#define URHO3D_IK".toList ]

/-- The line `#include <Urho3DAll.h>` (line 243), without its `NL`. -/
def umbrellaInclude : Str := "#include <Urho3DAll.h>".toList

/-- The text added under `#if defined(WIN32) ...` at lines 245-250. -/
def platformShims (plat : Platform) : Str :=
  match plat with
  | .windows =>
    "extern \"C\"  void __cdecl __std_reverse_trivially_swappable_8(void* _First, void* _Last) noexcept \x7b\x7d".toList
      ++ NL ++
    "extern \"C\"  void __cdecl __std_reverse_trivially_swappable_4(void* _First, void* _Last) noexcept \x7b\x7d".toList
      ++ NL
  | _ => []

/-- The value of `cmd` after lines 229-250: the fixed macros, one `#define` per entry of
`Opts.Defines`, the umbrella include and the platform shims. -/
def cmdPreamble (plat : Platform) (Defines : List Str) : Str :=
  (fixedDefines.map fun d => d ++ NL).flatten
    ++ (Defines.map fun define => "#define ".toList ++ define ++ NL).flatten
    ++ (umbrellaInclude ++ NL)
    ++ platformShims plat

/-- The text appended for one compilation unit at line 271. -/
def includeLine (file : Str) : Str :=
  "#include \"".toList ++ file ++ "\"".toList ++ NL

/-- The loop over `Opts.PathsToLoad` (lines 252-273), threading `cmd` and the session. -/
def loadPaths {σ : Type} (fs : FileSystem) (I : Interpreter σ) :
    List Str → Str × Session σ → Str × Session σ
  | [], acc => acc
  | path :: paths, (cmd, S) =>
    match fs.directory path with
    | none => loadPaths fs I paths (cmd, S)
    | some listing =>
      let S1 := S.AddIncludePath I path
      let st := getSourceCodeFilesInDirectory I path listing
        { session := S1, files := [], headers := [] }
      loadPaths fs I paths (cmd ++ (st.files.map includeLine).flatten, st.session)

/-- The variable `urho3dResourceDir` after line 284; `Urho3DHome` is the local variable
of that name, that is the option value after `fixPath` when it is not empty. -/
def urho3dResourceDir (Urho3DResourcePrefixPath Urho3DHome : Str) : Str :=
  fixPath
    (if Urho3DResourcePrefixPath ≠ [] then Urho3DResourcePrefixPath
     else if Urho3DHome ≠ [] then Urho3DHome ++ "/bin".toList
     else [])

/-- The variable `classDeclaration` (lines 286-293). -/
def classDeclaration (ApplicationClassName resourceDir : Str) : Str :=
  "class Urho3DClingProxyApplication : public ".toList ++ ApplicationClassName ++ NL
    ++ "\x7b".toList ++ NL
    ++ "URHO3D_OBJECT(Urho3DClingProxyApplication,  ".toList ++ ApplicationClassName
        ++ ");".toList ++ NL
    ++ "Urho3DClingProxyApplication(Context* context):".toList ++ ApplicationClassName
        ++ "(context)".toList ++ NL
    ++ "\x7b".toList ++ NL
    ++ "engineParameters_[EP_RESOURCE_PREFIX_PATHS] = \"".toList ++ resourceDir
        ++ "\";".toList ++ NL
    ++ "\x7d".toList ++ NL
    ++ "\x7d;".toList ++ NL

/-! ## Staged execution driver (lines 186-317) -/

/-- Stage 2 (line 304). -/
def contextStatement : Str :=
  "Urho3D::SharedPtr<Urho3D::Context> context(new Urho3D::Context());".toList

/-- Stage 3 (line 308). -/
def applicationStatement : Str :=
  "Urho3D::SharedPtr<Urho3DClingProxyApplication> application(new Urho3DClingProxyApplication(context));".toList

/-- Stage 4 (line 312). -/
def runStatement : Str := "application->Run();".toList

/-- The four `process` calls with their checks (lines 299-316). -/
def runStages {σ : Type} (I : Interpreter σ) (cmd : Str) (S : Session σ) : Int × Session σ :=
  let r1 := S.process I cmd
  if r1.1 = CompilationResult.kFailure then (EXIT_FAILURE, r1.2) else
  let r2 := r1.2.process I contextStatement
  if r2.1 = CompilationResult.kFailure then (EXIT_FAILURE, r2.2) else
  let r3 := r2.2.process I applicationStatement
  if r3.1 = CompilationResult.kFailure then (EXIT_FAILURE, r3.2) else
  let r4 := r3.2.process I runStatement
  if r4.1 = CompilationResult.kFailure then (EXIT_FAILURE, r4.2) else
  (0, r4.2)

/-- Lines 229-295 of `Urho3DMain`: the value of `cmd` submitted as stage 1 and the session
after the scans, entered with the local variable `Urho3DHome` (the option value, normalised
when not empty). -/
def synthesize {σ : Type} (plat : Platform) (fs : FileSystem) (I : Interpreter σ)
    (Opts : InvocationOptions) (Urho3DHome : Str) (S : Session σ) : Str × Session σ :=
  let acc := loadPaths fs I Opts.PathsToLoad (cmdPreamble plat Opts.Defines, S)
  let resourceDir := urho3dResourceDir Opts.Urho3DResourcePrefixPath Urho3DHome
  (acc.1 ++ (classDeclaration Opts.ApplicationClassName resourceDir ++ NL), acc.2)

/-- Lines 229-316 of `Urho3DMain`, the part behind the precondition block. -/
def synthesizeAndRun {σ : Type} (plat : Platform) (fs : FileSystem) (I : Interpreter σ)
    (Opts : InvocationOptions) (Urho3DHome : Str) (S : Session σ) : Int × Session σ :=
  let r := synthesize plat fs I Opts Urho3DHome S
  runStages I r.1 r.2

/-- `Urho3DMain(Interp)` (lines 186-317): the exit status and the session afterwards. -/
def Urho3DMain {σ : Type} (plat : Platform) (fs : FileSystem) (I : Interpreter σ)
    (Opts : InvocationOptions) (S : Session σ) : Int × Session σ :=
  if Opts.Urho3DHome ≠ [] then
    let Urho3DHome := fixPath Opts.Urho3DHome
    let r := checkUrho3DHome plat fs I Urho3DHome S
    if !r.1 then (EXIT_FAILURE, r.2)
    else synthesizeAndRun plat fs I Opts Urho3DHome r.2
  else
    synthesizeAndRun plat fs I Opts Opts.Urho3DHome S

/-- The local variable `Urho3DHome` of `Urho3DMain` behind the precondition block. -/
def localHome (Opts : InvocationOptions) : Str :=
  if Opts.Urho3DHome ≠ [] then fixPath Opts.Urho3DHome else Opts.Urho3DHome

/-- The session in which `Urho3DMain` starts to synthesise when the preconditions pass. -/
def sessionAfterPreconditions {σ : Type} (plat : Platform) (I : Interpreter σ)
    (Opts : InvocationOptions) (S : Session σ) : Session σ :=
  if Opts.Urho3DHome ≠ [] then homeSession plat I (fixPath Opts.Urho3DHome) S else S

/-- The fail-fast rule of section 4.5 in the spec's words: submit the stages in order,
stop at the first one that reports failure and report overall failure then. -/
def submitUntilFailure {σ : Type} (I : Interpreter σ) : List Str → Session σ → Int × Session σ
  | [], S => (0, S)
  | text :: stages, S =>
    let r := S.process I text
    if r.1 = CompilationResult.kFailure then (EXIT_FAILURE, r.2)
    else submitUntilFailure I stages r.2

/-! ## Diagnostic reconciler (lines 37-56) -/

/-- Modelled from the spec: the diagnostics client `{error-count, begin-scope(),
end-scope()}` of section 6, which is part of the compiler engine and not of this source
file. `ActiveSourceFiles` is the number of source-file scopes begun and not yet ended (a
scope is open when it is positive), `NumErrors` the accumulated error count and
`unflushed` the verifier-detected mismatches that ending the scope flushes into it. -/
structure DiagnosticConsumer where
  NumErrors : Nat
  ActiveSourceFiles : Nat
  unflushed : Nat
  deriving DecidableEq, Repr

/-- Modelled from the spec: `begin-scope()` of the diagnostics client opens a scope. -/
def DiagnosticConsumer.BeginSourceFile (c : DiagnosticConsumer) : DiagnosticConsumer :=
  { c with ActiveSourceFiles := c.ActiveSourceFiles + 1 }

/-- Modelled from the spec: `end-scope()` of the diagnostics client. With no scope open
it is the "unbalanced scope" condition (`none`); otherwise it closes the scope and
flushes the verifier-detected mismatches into the error count. -/
def DiagnosticConsumer.EndSourceFile (c : DiagnosticConsumer) : Option DiagnosticConsumer :=
  if c.ActiveSourceFiles = 0 then none
  else some { NumErrors := c.NumErrors + c.unflushed,
              ActiveSourceFiles := c.ActiveSourceFiles - 1,
              unflushed := 0 }

/-- `checkDiagErrors(CI, OutErrs)` (lines 37-56) on the client of `CI`, with
`VerifyDiagnostics` the flag `CI->getDiagnosticOpts().VerifyDiagnostics`. The result is
`none` when a client call meets the unbalanced-scope condition, otherwise the return
value, the value of `Errs` (stored to `*OutErrs` when that pointer is given) and the
client afterwards. -/
def checkDiagErrors (VerifyDiagnostics : Bool) (Client : DiagnosticConsumer) :
    Option (Int × Nat × DiagnosticConsumer) :=
  let Errs := Client.NumErrors
  if VerifyDiagnostics then
    match Client.EndSourceFile with
    | none => none
    | some Client1 =>
      let Errs := Client1.NumErrors
      let Client2 := Client1.BeginSourceFile
      some (if Errs ≠ 0 then EXIT_FAILURE else EXIT_SUCCESS, Errs, Client2)
  else
    some (if Errs ≠ 0 then EXIT_FAILURE else EXIT_SUCCESS, Errs, Client)

/-! ## The scan result in the words of the spec (sections 3 and 4.3) -/

/-- The tag of a discovered entry (section 3, Classification). -/
inductive Classification where
  | Directory
  | CompilationUnit
  | Header
  | Other
  deriving DecidableEq, Repr, Inhabited

/-- The classification of a file-like entry by its extension (section 4.3): the source
set is `.cpp`, `.cc`, `.c`, the header set `.h`, `.hpp`, anything else is ignored. -/
def classifyExtension (ext : Str) : Classification :=
  if ext ∈ [".cpp".toList, ".cc".toList, ".c".toList] then Classification.CompilationUnit
  else if ext ∈ [".h".toList, ".hpp".toList] then Classification.Header
  else Classification.Other

/-- The tree below `path` written out entry by entry: every entry of the listing occurs
once, in depth-first order (a directory before its contents, its contents before its
later siblings), with its classification and its normalised full path, which is
`fixPath` of the path of the directory that holds it, a slash and its name. -/
def walk : Str → DirListing → List (Classification × Str)
  | _, .nil => []
  | path, .dir name children rest =>
    (Classification.Directory, fixPath (path ++ "/".toList ++ name))
      :: (walk (fixPath (path ++ "/".toList ++ name)) children ++ walk path rest)
  | path, .file name rest =>
    (classifyExtension (extension name), fixPath (path ++ "/".toList ++ name)) :: walk path rest
  | path, .other name rest =>
    (Classification.Other, fixPath (path ++ "/".toList ++ name)) :: walk path rest

/-- The paths of the entries of the tree below `path` that carry the tag `tag`, in
depth-first order, one element for each such entry. -/
def pathsTagged (tag : Classification) (path : Str) (listing : DirListing) : List Str :=
  (walk path listing).filterMap fun e => if e.1 = tag then some e.2 else none

/-- Registration of a sequence of include paths, in order. -/
def Session.AddIncludePaths {σ : Type} (I : Interpreter σ) (S : Session σ) (paths : List Str) :
    Session σ :=
  paths.foldl (Session.AddIncludePath I) S

/-- The entries of paths-to-load that are directories, in order, with their listings. -/
def loadedDirectories (fs : FileSystem) (paths : List Str) : List (Str × DirListing) :=
  paths.filterMap fun path => (fs.directory path).map fun listing => (path, listing)

/-- The compilation units discovered for paths-to-load: directory by directory in the
order of paths-to-load, and within each in depth-first order. -/
def discoveredUnits (fs : FileSystem) (paths : List Str) : List Str :=
  ((loadedDirectories fs paths).map fun d =>
    pathsTagged Classification.CompilationUnit d.1 d.2).flatten

/-- The headers discovered for paths-to-load, in the same order. -/
def discoveredHeaders (fs : FileSystem) (paths : List Str) : List Str :=
  ((loadedDirectories fs paths).map fun d =>
    pathsTagged Classification.Header d.1 d.2).flatten

/-- The resource-prefix precedence of section 6 in the spec's words: the explicit
override, else `<framework-home>/bin`, else the empty string, each normalised. -/
def expectedResourcePrefix (Opts : InvocationOptions) : Str :=
  if Opts.Urho3DResourcePrefixPath ≠ [] then fixPath Opts.Urho3DResourcePrefixPath
  else if Opts.Urho3DHome ≠ [] then fixPath (fixPath Opts.Urho3DHome ++ "/bin".toList)
  else []

/-! ## Full paths by plain concatenation -/

/-- No two adjacent characters of the string are both slashes. -/
def noDoubleSlash : Str → Bool
  | [] => true
  | [_] => true
  | c :: d :: rest => !(c == '/' && d == '/') && noDoubleSlash (d :: rest)

/-- No three adjacent characters of the string are all slashes. -/
def noTripleSlash : Str → Bool
  | c :: d :: e :: rest =>
    !(c == '/' && d == '/' && e == '/') && noTripleSlash (d :: e :: rest)
  | _ => true

/-- A path on which `fixPath` has nothing to do and to which a slash can be appended: no
backslash, no doubled slash, and no slash at the end. -/
def cleanPath (path : Str) : Prop :=
  '\\' ∉ path ∧ noDoubleSlash path = true ∧ path.getLast? ≠ some '/'

/-- A usable entry name: not empty and free of slash and backslash. -/
def cleanName (name : Str) : Prop :=
  name ≠ [] ∧ '/' ∉ name ∧ '\\' ∉ name

/-- Every entry of the tree has a usable name. -/
def wellNamed : DirListing → Prop
  | .nil => True
  | .dir name children rest => cleanName name ∧ wellNamed children ∧ wellNamed rest
  | .file name rest => cleanName name ∧ wellNamed rest
  | .other name rest => cleanName name ∧ wellNamed rest

/-- The full paths of the entries of the tree below `path`, in depth-first order, each
written as the path of its directory, a slash and its name, without any normalisation. -/
def plainPaths : Str → DirListing → List Str
  | _, .nil => []
  | path, .dir name children rest =>
    (path ++ "/".toList ++ name)
      :: (plainPaths (path ++ "/".toList ++ name) children ++ plainPaths path rest)
  | path, .file name rest => (path ++ "/".toList ++ name) :: plainPaths path rest
  | path, .other name rest => (path ++ "/".toList ++ name) :: plainPaths path rest

/-! ## Well-formed trees and roots -/

/-- The lines of a text: the pieces between its line breaks, in order (a text that ends
with a line break has an empty last line). -/
def splitLines : Str → List Str
  | [] => [[]]
  | c :: cs =>
    if c = '\n' then [] :: splitLines cs
    else
      match splitLines cs with
      | [] => [[c]]
      | l :: ls => (c :: l) :: ls

/-- The text made of the given lines, each followed by a line break. -/
def joinLines (ls : List Str) : Str :=
  (ls.map fun l => l ++ NL).flatten

/-- The lines of `platformShims`. -/
def shimLines (plat : Platform) : List Str :=
  match plat with
  | .windows =>
    [ "extern \"C\"  void __cdecl __std_reverse_trivially_swappable_8(void* _First, void* _Last) noexcept \x7b\x7d".toList,
      "extern \"C\"  void __cdecl __std_reverse_trivially_swappable_4(void* _First, void* _Last) noexcept \x7b\x7d".toList ]
  | _ => []

/-- The lines of `classDeclaration` followed by the empty line that line 295 adds. -/
def classLines (ApplicationClassName resourceDir : Str) : List Str :=
  [ "class Urho3DClingProxyApplication : public ".toList ++ ApplicationClassName,
    "\x7b".toList,
    "URHO3D_OBJECT(Urho3DClingProxyApplication,  ".toList ++ ApplicationClassName
      ++ ");".toList,
    "Urho3DClingProxyApplication(Context* context):".toList ++ ApplicationClassName
      ++ "(context)".toList,
    "\x7b".toList,
    "engineParameters_[EP_RESOURCE_PREFIX_PATHS] = \"".toList ++ resourceDir ++ "\";".toList,
    "\x7d".toList,
    "\x7d;".toList,
    [] ]

/-- The line appended for one compilation unit at line 271, without its line break. -/
def includeText (file : Str) : Str :=
  "#include \"".toList ++ file ++ "\"".toList

/-- The lines of `cmdPreamble`: the fixed macros, one line per caller-supplied define, the
umbrella include and the platform shims. -/
def preambleLines (plat : Platform) (Defines : List Str) : List Str :=
  fixedDefines ++ (Defines.map fun define => "#define ".toList ++ define)
    ++ [umbrellaInclude] ++ shimLines plat

/-- The line starts with `#include "`, that is, it is an include line of the quoted
form the driver writes for compilation units (the umbrella include has angle brackets). -/
def isQuoteInclude (l : Str) : Bool :=
  "#include \"".toList.isPrefixOf l

/-- The text `Urho3DMain` submits first, if any. -/
def firstSubmitted {σ : Type} (S : Session σ) : Str :=
  (S.submitted.map Prod.fst).headD []

/-! ## Concrete collaborators and snapshots used in the instances -/

/-- A stub interpreter without state that reports success for every text. -/
def stubInterpreter : Interpreter Unit :=
  { AddIncludePath := fun s _ => s
    loadFile := fun s _ => s
    process := fun s _ => (CompilationResult.kSuccess, s) }

/-- An interpreter whose state counts the `process` calls made so far and which reports
failure for call number `n` (counted from 1) and success for every other call. -/
def failingAt (n : Nat) : Interpreter Nat :=
  { AddIncludePath := fun s _ => s
    loadFile := fun s _ => s
    process := fun s _ =>
      (if s + 1 = n then CompilationResult.kFailure else CompilationResult.kSuccess, s + 1) }

/-- The tree of the scan scenario of section 8: `a.cpp`, `b.h`, `sub/c.cc`, `sub/d.hpp`
and `e.txt`. -/
def scenarioListing : DirListing :=
  .file "a.cpp".toList (.file "b.h".toList
    (.dir "sub".toList (.file "c.cc".toList (.file "d.hpp".toList .nil))
      (.file "e.txt".toList .nil)))

/-- A directory holding the header `b.h` and a file whose name consists of `b.h`, a
double quote, a line break and `#include "zzz.c` (all of them ordinary characters of a
POSIX file name); its extension is `.c`. -/
def oddListing : DirListing :=
  .file "b.h".toList (.file "b.h\"\n#include \"zzz.c".toList .nil)

/-- A snapshot with a framework home `/opt/urho` that has the four required
subdirectories (all empty) and the runtime artifact of a non-Windows, non-Apple target,
the source tree `scenarioListing` at `root` and an empty directory `empty`. -/
def scenarioFS : FileSystem :=
  { directory := fun p =>
      if p = "root".toList then some scenarioListing
      else if p ∈ ["empty".toList, "/opt/urho".toList, "/opt/urho/include".toList,
          "/opt/urho/include/Urho3D".toList, "/opt/urho/include/Urho3D/ThirdParty".toList,
          "/opt/urho/include/Urho3D/ThirdParty/Bullet".toList] then some DirListing.nil
      else none
    is_regular_file := fun p => decide (p = "/opt/urho/lib/libUrho3D.so".toList)
    is_symlink_file := fun _ => false }

/-- The snapshot `scenarioFS` with the directory `odd` added, which holds `oddListing`. -/
def oddFS : FileSystem :=
  { directory := fun p => if p = "odd".toList then some oddListing else scenarioFS.directory p
    is_regular_file := scenarioFS.is_regular_file
    is_symlink_file := scenarioFS.is_symlink_file }

/-- Options of a scenario: home, paths to load, resource override and class name. -/
def scenarioOptions (home : String) (paths : List String) (resource className : String) :
    InvocationOptions :=
  { Urho3DHome := home.toList
    Defines := []
    PathsToLoad := paths.map String.toList
    Urho3DResourcePrefixPath := resource.toList
    ApplicationClassName := className.toList }


/-! ## Facts about `find` -/

theorem findFrom_bounds (search : Str) :
    ∀ (cs : Str) (off p : Nat), findFrom search cs off = some p →
      off ≤ p ∧ (p - off) + search.length ≤ cs.length ∧
        search.isPrefixOf (cs.drop (p - off)) = true := by
  intro cs
  induction cs with
  | nil =>
    intro off p h
    unfold findFrom at h
    split at h
    · rename_i hp
      have hpre := List.isPrefixOf_iff_prefix.mp hp
      have hlen := hpre.length_le
      simp only [Option.some.injEq] at h
      subst h
      simp at hlen
      simp [hlen, hp]
    · simp at h
  | cons c cs ih =>
    intro off p h
    unfold findFrom at h
    split at h
    · rename_i hp
      have hpre := List.isPrefixOf_iff_prefix.mp hp
      have hlen := hpre.length_le
      simp only [Option.some.injEq] at h
      subst h
      simp only [Nat.sub_self, Nat.zero_add, List.drop_zero]
      exact ⟨Nat.le_refl _, hlen, hp⟩
    · obtain ⟨h1, h2, h3⟩ := ih (off + 1) p h
      have hsub : p - off = (p - (off + 1)) + 1 := by omega
      refine ⟨by omega, ?_, ?_⟩
      · simp only [List.length_cons]; omega
      · rw [hsub, List.drop_succ_cons]; exact h3

theorem find_bounds (subject search : Str) (pos p : Nat) (h : find subject search pos = some p) :
    pos ≤ p ∧ p + search.length ≤ subject.length := by
  unfold find at h
  split at h
  · rename_i hle
    obtain ⟨h1, h2, _⟩ := findFrom_bounds search _ _ _ h
    simp only [List.length_drop] at h2
    omega
  · simp at h

theorem find_hit (subject search : Str) (pos : Nat) (hpos : pos ≤ subject.length)
    (hp : search.isPrefixOf (subject.drop pos) = true) : find subject search pos = some pos := by
  unfold find
  rw [if_pos hpos]
  cases hd : subject.drop pos with
  | nil => rw [hd] at hp; simp [findFrom, hp]
  | cons c cs => rw [hd] at hp; simp [findFrom, hp]

theorem find_skip (subject search : Str) (pos : Nat) (hpos : pos < subject.length)
    (hp : search.isPrefixOf (subject.drop pos) = false) :
    find subject search pos = find subject search (pos + 1) := by
  unfold find
  rw [if_pos (Nat.le_of_lt hpos), if_pos (Nat.succ_le_of_lt hpos)]
  cases hd : subject.drop pos with
  | nil =>
    have := congrArg List.length hd
    simp at this
    omega
  | cons c cs =>
    rw [hd] at hp
    have hcs : subject.drop (pos + 1) = cs := by
      have := congrArg (List.drop 1) hd
      simpa [List.drop_drop, Nat.add_comm] using this
    rw [hcs]
    simp [findFrom, hp]

theorem find_end (subject search : Str) (pos : Nat) (hs : search ≠ [])
    (hpos : subject.length ≤ pos) : find subject search pos = none := by
  cases hf : find subject search pos with
  | none => rfl
  | some p =>
    have := find_bounds subject search pos p hf
    have hl : 0 < search.length := List.length_pos.mpr hs
    omega


/-! ## The loop of `ReplaceString` -/

/-- Each replacement strictly shortens the unscanned suffix `subject.size() - pos`. -/
theorem ReplaceStringIter_decreases (search replace subject : Str) (pos : Nat) (hs : search ≠ [])
    (subject1 : Str) (pos1 : Nat)
    (h : ReplaceStringIter search replace subject pos = some (subject1, pos1)) :
    subject1.length - pos1 < subject.length - pos := by
  unfold ReplaceStringIter at h
  cases hf : find subject search pos with
  | none => rw [hf] at h; simp at h
  | some p =>
    rw [hf] at h
    simp only [Option.some.injEq, Prod.mk.injEq] at h
    obtain ⟨h1, h2⟩ := h
    have hb := find_bounds subject search pos p hf
    have hl : 0 < search.length := List.length_pos.mpr hs
    subst h1 h2
    simp only [replaceAt, List.length_append, List.length_take, List.length_drop]
    omega

/-- With a non-empty search string the loop exits as soon as the fuel exceeds the length of
the unscanned suffix. -/
theorem ReplaceStringLoop_halts (search replace : Str) (hs : search ≠ []) :
    ∀ (fuel : Nat) (subject : Str) (pos : Nat), subject.length - pos < fuel →
      ∃ r, ReplaceStringLoop search replace fuel subject pos = some r := by
  intro fuel
  induction fuel with
  | zero => intro subject pos h; omega
  | succ fuel ih =>
    intro subject pos h
    unfold ReplaceStringLoop
    cases hi : ReplaceStringIter search replace subject pos with
    | none => exact ⟨subject, rfl⟩
    | some sp =>
      obtain ⟨subject1, pos1⟩ := sp
      have hd := ReplaceStringIter_decreases search replace subject pos hs subject1 pos1 hi
      exact ih subject1 pos1 (by omega)

/-- With an empty search string the loop never exits, whatever the fuel. -/
theorem ReplaceStringLoop_empty_search (replace : Str) :
    ∀ (fuel : Nat) (subject : Str) (pos : Nat), pos ≤ subject.length →
      ReplaceStringLoop [] replace fuel subject pos = none := by
  intro fuel
  induction fuel with
  | zero => intro subject pos _; rfl
  | succ fuel ih =>
    intro subject pos h
    unfold ReplaceStringLoop
    have hf : find subject [] pos = some pos := find_hit subject [] pos h (by simp [List.isPrefixOf])
    simp only [ReplaceStringIter, hf]
    apply ih
    simp only [replaceAt, List.length_append, List.length_take, List.length_drop,
      List.length_nil]
    omega

/-- More fuel does not change the result of a loop that has exited. -/
theorem ReplaceStringLoop_mono (search replace : Str) :
    ∀ (fuel : Nat) (subject : Str) (pos : Nat) (r : Str),
      ReplaceStringLoop search replace fuel subject pos = some r →
      ∀ k, ReplaceStringLoop search replace (fuel + k) subject pos = some r := by
  intro fuel
  induction fuel with
  | zero => intro subject pos r h; simp [ReplaceStringLoop] at h
  | succ fuel ih =>
    intro subject pos r h k
    have hk : fuel + 1 + k = (fuel + k) + 1 := by omega
    rw [hk]
    unfold ReplaceStringLoop at h ⊢
    cases hi : ReplaceStringIter search replace subject pos with
    | none => rw [hi] at h; exact h
    | some sp =>
      obtain ⟨subject1, pos1⟩ := sp
      rw [hi] at h
      exact ih subject1 pos1 r h k

theorem ReplaceStringLoop_end (search replace done : Str) (hs : search ≠ []) (fuel : Nat) :
    ReplaceStringLoop search replace (fuel + 1) done done.length = some done := by
  unfold ReplaceStringLoop
  simp [ReplaceStringIter, find_end done search done.length hs (Nat.le_refl _)]

theorem ReplaceStringLoop_hit (search replace done rest : Str) (fuel : Nat)
    (hp : search.isPrefixOf rest = true) :
    ReplaceStringLoop search replace (fuel + 1) (done ++ rest) done.length =
      ReplaceStringLoop search replace fuel ((done ++ replace) ++ rest.drop search.length)
        (done ++ replace).length := by
  conv => lhs; unfold ReplaceStringLoop
  have hf : find (done ++ rest) search done.length = some done.length :=
    find_hit _ _ _ (by simp) (by simpa using hp)
  simp only [ReplaceStringIter, hf, replaceAt]
  have h1 : List.take done.length (done ++ rest) = done := List.take_left _ _
  have h2 : List.drop (done.length + search.length) (done ++ rest) =
      List.drop search.length rest := List.drop_append search.length
  rw [h1, h2, List.length_append]

theorem ReplaceStringLoop_skip (search replace done : Str) (c : Char) (rest : Str) (fuel : Nat)
    (hp : search.isPrefixOf (c :: rest) = false) :
    ReplaceStringLoop search replace fuel (done ++ c :: rest) done.length =
      ReplaceStringLoop search replace fuel ((done ++ [c]) ++ rest) (done ++ [c]).length := by
  have hf : find (done ++ c :: rest) search done.length =
      find (done ++ c :: rest) search (done.length + 1) :=
    find_skip _ _ _ (by simp) (by simpa using hp)
  have hl : (done ++ [c]) ++ rest = done ++ c :: rest := by simp
  have hn : (done ++ [c]).length = done.length + 1 := by simp
  rw [hl, hn]
  cases fuel with
  | zero => rfl
  | succ fuel =>
    unfold ReplaceStringLoop
    simp only [ReplaceStringIter, hf]

/-! ## Closed forms of the two passes of `fixPath` -/

theorem backslash_loop :
    ∀ (rest done : Str) (fuel : Nat), rest.length < fuel →
      ReplaceStringLoop ['\\'] ['/'] fuel (done ++ rest) done.length =
        some (done ++ slashify rest) := by
  intro rest
  induction rest with
  | nil =>
    intro done fuel h
    obtain ⟨f, rfl⟩ : ∃ f, fuel = f + 1 := ⟨fuel - 1, by omega⟩
    simpa [slashify] using ReplaceStringLoop_end ['\\'] ['/'] done (by simp) f
  | cons c rest ih =>
    intro done fuel h
    simp only [List.length_cons] at h
    by_cases hc : c = '\\'
    · subst hc
      obtain ⟨f, rfl⟩ : ∃ f, fuel = f + 1 := ⟨fuel - 1, by omega⟩
      rw [ReplaceStringLoop_hit ['\\'] ['/'] done ('\\' :: rest) f (by simp [List.isPrefixOf])]
      have := ih (done ++ ['/']) f (by omega)
      simpa [slashify] using this
    · rw [ReplaceStringLoop_skip ['\\'] ['/'] done c rest fuel (by
        simp [List.isPrefixOf]; exact fun h => hc h.symm)]
      have := ih (done ++ [c]) fuel (by omega)
      simpa [slashify, hc] using this

theorem doubleSlash_loop :
    ∀ (n : Nat) (rest done : Str) (fuel : Nat), rest.length ≤ n → rest.length < fuel →
      ReplaceStringLoop ['/', '/'] ['/'] fuel (done ++ rest) done.length =
        some (done ++ collapse rest) := by
  intro n
  induction n with
  | zero =>
    intro rest done fuel hn h
    have : rest = [] := List.length_eq_zero.mp (by omega)
    subst this
    obtain ⟨f, rfl⟩ : ∃ f, fuel = f + 1 := ⟨fuel - 1, by omega⟩
    simpa [collapse] using ReplaceStringLoop_end ['/', '/'] ['/'] done (by simp) f
  | succ n ih =>
    intro rest done fuel hn h
    match rest, hn, h with
    | [], _, h =>
      obtain ⟨f, rfl⟩ : ∃ f, fuel = f + 1 := ⟨fuel - 1, by omega⟩
      simpa [collapse] using ReplaceStringLoop_end ['/', '/'] ['/'] done (by simp) f
    | [c], _, h =>
      rw [ReplaceStringLoop_skip ['/', '/'] ['/'] done c [] fuel (by simp [List.isPrefixOf])]
      have := ih [] (done ++ [c]) fuel (by simp) (by simp at h ⊢; omega)
      simpa [collapse] using this
    | c :: d :: rest, hn, h =>
      simp only [List.length_cons] at hn h
      by_cases hcd : c = '/' ∧ d = '/'
      · obtain ⟨rfl, rfl⟩ := hcd
        obtain ⟨f, rfl⟩ : ∃ f, fuel = f + 1 := ⟨fuel - 1, by omega⟩
        rw [ReplaceStringLoop_hit ['/', '/'] ['/'] done ('/' :: '/' :: rest) f
          (by simp [List.isPrefixOf])]
        have := ih rest (done ++ ['/']) f (by omega) (by omega)
        simpa [collapse] using this
      · rw [ReplaceStringLoop_skip ['/', '/'] ['/'] done c (d :: rest) fuel (by
          simp only [List.isPrefixOf, Bool.and_true, Bool.and_eq_false_imp, beq_iff_eq]
          intro h1
          simp only [beq_eq_false_iff_ne, ne_eq]
          intro h2
          exact hcd ⟨h1.symm, h2.symm⟩)]
        have := ih (d :: rest) (done ++ [c]) fuel (by simp; omega) (by simp; omega)
        simpa [collapse, hcd] using this

/-- The first pass of `fixPath` halts and replaces every backslash by a slash. -/
theorem ReplaceString_backslash (path : Str) :
    ReplaceString path "\\".toList "/".toList = some (slashify path) := by
  have := backslash_loop path [] (path.length + 1) (Nat.lt_succ_self _)
  simpa [ReplaceString] using this

/-- The second pass of `fixPath` halts and computes `collapse`. -/
theorem ReplaceString_doubleSlash (path : Str) :
    ReplaceString path "//".toList "/".toList = some (collapse path) := by
  have := doubleSlash_loop path.length path [] (path.length + 1) (Nat.le_refl _)
    (Nat.lt_succ_self _)
  simpa [ReplaceString] using this

/-- Both passes of `fixPath` halt, and `fixPath` is `collapse` after `slashify`. -/
theorem fixPath_runs (path : Str) :
    ReplaceString path "\\".toList "/".toList = some (slashify path) ∧
    ReplaceString (slashify path) "//".toList "/".toList = some (fixPath path) ∧
    fixPath path = collapse (slashify path) := by
  have h1 := ReplaceString_backslash path
  have h2 := ReplaceString_doubleSlash (slashify path)
  have h3 : fixPath path = collapse (slashify path) := by
    simp only [fixPath, h1, h2, Option.getD_some]
  exact ⟨h1, by rw [h3]; exact h2, h3⟩

theorem fixPath_eq (path : Str) : fixPath path = collapse (slashify path) :=
  (fixPath_runs path).2.2

/-! ## Properties of the closed forms -/

theorem mem_slashify (c : Char) (path : Str) (h : c ∈ slashify path) :
    c ≠ '\\' ∧ (c ∈ path ∨ c = '/') := by
  simp only [slashify, List.mem_map] at h
  obtain ⟨a, ha, rfl⟩ := h
  by_cases hb : a = '\\'
  · simp [hb]
  · simp [hb, ha]

theorem slashify_of_no_backslash (path : Str) (h : '\\' ∉ path) : slashify path = path := by
  induction path with
  | nil => rfl
  | cons c cs ih =>
    simp only [List.mem_cons, not_or] at h
    have hc : c ≠ '\\' := fun e => h.1 e.symm
    have := ih h.2
    simp only [slashify, List.map_cons] at this ⊢
    rw [this, if_neg hc]

theorem mem_collapse (c : Char) : ∀ (path : Str), c ∈ collapse path → c ∈ path := by
  intro path
  induction path using collapse.induct with
  | case1 => intro h; simp [collapse] at h
  | case2 d => intro h; simpa [collapse] using h
  | case3 a b rest hab ih =>
    intro h
    rw [collapse, if_pos hab] at h
    simp only [List.mem_cons] at h ⊢
    rcases h with h | h
    · exact Or.inr (Or.inl (h.trans hab.2.symm))
    · exact Or.inr (Or.inr (ih h))
  | case4 a b rest hab ih =>
    intro h
    rw [collapse, if_neg hab] at h
    simp only [List.mem_cons] at h ⊢
    rcases h with h | h
    · exact Or.inl h
    · have := ih h
      simp only [List.mem_cons] at this
      exact Or.inr this

theorem mem_fixPath (c : Char) (path : Str) (h : c ∈ fixPath path) :
    c ≠ '\\' ∧ (c ∈ path ∨ c = '/') := by
  rw [fixPath_eq] at h
  exact mem_slashify c path (mem_collapse c _ h)

theorem collapse_eq_nil (path : Str) : collapse path = [] ↔ path = [] := by
  constructor
  · intro h
    match path, h with
    | [], _ => rfl
    | [c], h => simp [collapse] at h
    | c :: d :: rest, h =>
      rw [collapse] at h
      split at h <;> simp at h
  · rintro rfl; rfl

theorem fixPath_eq_nil (path : Str) : fixPath path = [] ↔ path = [] := by
  rw [fixPath_eq, collapse_eq_nil]
  simp [slashify]

/-! ## Claims on the path normaliser -/

/-- C10: `ReplaceString` halts for every subject, every replacement and every non-empty
search string, from every position within the fuel `size - pos + 1`; each replacement
strictly shortens the unscanned suffix `subject.size() - pos`, also when the replacement
contains the search string; hence both calls made by `fixPath` halt. With an empty search
string the loop does not exit, whatever the fuel. -/
theorem C10_ReplaceString_terminates :
    (∀ (subject search replace : Str), search ≠ [] →
        (∃ r, ReplaceString subject search replace = some r) ∧
        (∀ (fuel pos : Nat), subject.length - pos < fuel →
          ∃ r, ReplaceStringLoop search replace fuel subject pos = some r ∧
            ∀ k, ReplaceStringLoop search replace (fuel + k) subject pos = some r) ∧
        (∀ (pos : Nat) (subject1 : Str) (pos1 : Nat),
          ReplaceStringIter search replace subject pos = some (subject1, pos1) →
          subject1.length - pos1 < subject.length - pos)) ∧
    (∀ (path : Str), ∃ path1,
        ReplaceString path "\\".toList "/".toList = some path1 ∧
        ReplaceString path1 "//".toList "/".toList = some (fixPath path)) ∧
    (∀ (subject replace : Str) (fuel : Nat),
        ReplaceStringLoop [] replace fuel subject 0 = none) := by
  refine ⟨?_, ?_, ?_⟩
  · intro subject search replace hs
    refine ⟨?_, ?_, ?_⟩
    · exact ReplaceStringLoop_halts search replace hs _ subject 0 (by omega)
    · intro fuel pos h
      obtain ⟨r, hr⟩ := ReplaceStringLoop_halts search replace hs fuel subject pos h
      exact ⟨r, hr, ReplaceStringLoop_mono search replace fuel subject pos r hr⟩
    · intro pos subject1 pos1 h
      exact ReplaceStringIter_decreases search replace subject pos hs subject1 pos1 h
  · intro path
    exact ⟨slashify path, (fixPath_runs path).1, (fixPath_runs path).2.1⟩
  · intro subject replace fuel
    exact ReplaceStringLoop_empty_search replace fuel subject 0 (Nat.zero_le _)

/-- Instance of C10: the replacement `"//"` contains the search string `"/"`, and the
loop still halts, on the subject `"a/b/c"`, with the result `"a//b//c"`. -/
theorem C10_ReplaceString_terminates_witness :
    "/".toList ≠ [] ∧
    ReplaceString "a/b/c".toList "/".toList "//".toList = some "a//b//c".toList ∧
    ∃ r, ReplaceString "a/b/c".toList "/".toList "//".toList = some r :=
  ⟨by decide, by decide,
    (C10_ReplaceString_terminates.1 "a/b/c".toList "/".toList "//".toList (by decide)).1⟩

/-! ## The precondition block of `Urho3DMain` -/

theorem addIncludePath_of_dir {σ : Type} (fs : FileSystem) (I : Interpreter σ) (S : Session σ)
    (path : Str) (h : isDir fs path = true) :
    addIncludePath fs I S path = (true, S.AddIncludePath I path) := by
  simp only [addIncludePath, h, if_true]

theorem addIncludePath_of_not_dir {σ : Type} (fs : FileSystem) (I : Interpreter σ)
    (S : Session σ) (path : Str) (h : isDir fs path = false) :
    addIncludePath fs I S path = (false, S.err (path ++ " does not exist \n".toList)) := by
  simp only [addIncludePath, h, Bool.false_eq_true, if_false]

theorem loadFile_of_file {σ : Type} (fs : FileSystem) (I : Interpreter σ) (S : Session σ)
    (path : Str) (h : isFile fs path = true) :
    loadFile fs I S path = (true, S.loadFile I path) := by
  simp only [loadFile, h, if_true]

theorem loadFile_of_not_file {σ : Type} (fs : FileSystem) (I : Interpreter σ)
    (S : Session σ) (path : Str) (h : isFile fs path = false) :
    loadFile fs I S path = (false, S.err (path ++ " does not exist \n".toList)) := by
  simp only [loadFile, h, Bool.false_eq_true, if_false]

/-- The outcome of the precondition block, case by case. -/
theorem checkUrho3DHome_cases {σ : Type} (plat : Platform) (fs : FileSystem)
    (I : Interpreter σ) (home : Str) (S : Session σ) :
    ((isDir fs home = true ∧
       isDir fs (home ++ "/include".toList) = true ∧
       isDir fs (home ++ "/include/Urho3D".toList) = true ∧
       isDir fs (home ++ "/include/Urho3D/ThirdParty".toList) = true ∧
       isDir fs (home ++ "/include/Urho3D/ThirdParty/Bullet".toList) = true ∧
       isFile fs (urho3dLib plat home) = true) ∧
      checkUrho3DHome plat fs I home S = (true, homeSession plat I home S)) ∨
    ((isDir fs home = false ∨
       isDir fs (home ++ "/include".toList) = false ∨
       isDir fs (home ++ "/include/Urho3D".toList) = false ∨
       isDir fs (home ++ "/include/Urho3D/ThirdParty".toList) = false ∨
       isDir fs (home ++ "/include/Urho3D/ThirdParty/Bullet".toList) = false ∨
       isFile fs (urho3dLib plat home) = false) ∧
      (checkUrho3DHome plat fs I home S).1 = false ∧
      (checkUrho3DHome plat fs I home S).2.submitted = S.submitted) := by
  cases h0 : isDir fs home with
  | false =>
    right
    refine ⟨Or.inl rfl, ?_, ?_⟩ <;>
      simp only [checkUrho3DHome, h0, Bool.not_false, if_true, Session.err]
  | true =>
  cases h1 : isDir fs (home ++ "/include".toList) with
  | false =>
    right
    refine ⟨Or.inr (Or.inl rfl), ?_, ?_⟩ <;>
      simp only [checkUrho3DHome, h0, Bool.not_true, Bool.false_eq_true, if_false,
        addIncludePath_of_not_dir fs I _ _ h1, Bool.not_false, if_true, Session.err]
  | true =>
  cases h2 : isDir fs (home ++ "/include/Urho3D".toList) with
  | false =>
    right
    refine ⟨Or.inr (Or.inr (Or.inl rfl)), ?_, ?_⟩ <;>
      simp only [checkUrho3DHome, h0, Bool.not_true, Bool.false_eq_true, if_false,
        addIncludePath_of_dir fs I _ _ h1,
        addIncludePath_of_not_dir fs I _ _ h2, Bool.not_false, if_true, Session.err,
        Session.AddIncludePath]
  | true =>
  cases h3 : isDir fs (home ++ "/include/Urho3D/ThirdParty".toList) with
  | false =>
    right
    refine ⟨Or.inr (Or.inr (Or.inr (Or.inl rfl))), ?_, ?_⟩ <;>
      simp only [checkUrho3DHome, h0, Bool.not_true, Bool.false_eq_true, if_false,
        addIncludePath_of_dir fs I _ _ h1, addIncludePath_of_dir fs I _ _ h2,
        addIncludePath_of_not_dir fs I _ _ h3, Bool.not_false, if_true, Session.err,
        Session.AddIncludePath]
  | true =>
  cases h4 : isDir fs (home ++ "/include/Urho3D/ThirdParty/Bullet".toList) with
  | false =>
    right
    refine ⟨Or.inr (Or.inr (Or.inr (Or.inr (Or.inl rfl)))), ?_, ?_⟩ <;>
      simp only [checkUrho3DHome, h0, Bool.not_true, Bool.false_eq_true, if_false,
        addIncludePath_of_dir fs I _ _ h1, addIncludePath_of_dir fs I _ _ h2,
        addIncludePath_of_dir fs I _ _ h3,
        addIncludePath_of_not_dir fs I _ _ h4, Bool.not_false, if_true, Session.err,
        Session.AddIncludePath]
  | true =>
  cases h5 : isFile fs (urho3dLib plat home) with
  | false =>
    right
    refine ⟨Or.inr (Or.inr (Or.inr (Or.inr (Or.inr rfl)))), ?_, ?_⟩ <;>
      simp only [checkUrho3DHome, h0, Bool.not_true, Bool.false_eq_true, if_false,
        addIncludePath_of_dir fs I _ _ h1, addIncludePath_of_dir fs I _ _ h2,
        addIncludePath_of_dir fs I _ _ h3, addIncludePath_of_dir fs I _ _ h4,
        loadFile_of_not_file fs I _ _ h5, Bool.not_false, if_true, Session.err,
        Session.AddIncludePath]
  | true =>
    left
    refine ⟨⟨rfl, rfl, rfl, rfl, rfl, rfl⟩, ?_⟩
    simp only [checkUrho3DHome, h0, Bool.not_true, Bool.false_eq_true, if_false,
        addIncludePath_of_dir fs I _ _ h1, addIncludePath_of_dir fs I _ _ h2,
        addIncludePath_of_dir fs I _ _ h3, addIncludePath_of_dir fs I _ _ h4,
        loadFile_of_file fs I _ _ h5, homeSession]

/-- When the home is not a directory the block only writes to the error stream. -/
theorem checkUrho3DHome_missing_home {σ : Type} (plat : Platform) (fs : FileSystem)
    (I : Interpreter σ) (home : Str) (S : Session σ) (h : isDir fs home = false) :
    checkUrho3DHome plat fs I home S =
      (false, S.err (home ++ " does not exist \n".toList)) := by
  simp only [checkUrho3DHome, h, Bool.not_false, if_true]

/-- C4: for a non-empty framework home whose normalised form is not a directory, or one of
whose four required subpaths is not a directory, or whose platform runtime artifact is not
file-like, `Urho3DMain` returns `EXIT_FAILURE` and makes no `process` call; when the home
itself is not a directory it also registers no include path, loads no file and leaves the
interpreter untouched. -/
theorem C4_fatal_precondition {σ : Type} (plat : Platform) (fs : FileSystem)
    (I : Interpreter σ) (Opts : InvocationOptions) (S : Session σ)
    (hne : Opts.Urho3DHome ≠ [])
    (hfail : isDir fs (fixPath Opts.Urho3DHome) = false ∨
      isDir fs (fixPath Opts.Urho3DHome ++ "/include".toList) = false ∨
      isDir fs (fixPath Opts.Urho3DHome ++ "/include/Urho3D".toList) = false ∨
      isDir fs (fixPath Opts.Urho3DHome ++ "/include/Urho3D/ThirdParty".toList) = false ∨
      isDir fs (fixPath Opts.Urho3DHome ++ "/include/Urho3D/ThirdParty/Bullet".toList) = false ∨
      isFile fs (urho3dLib plat (fixPath Opts.Urho3DHome)) = false) :
    (Urho3DMain plat fs I Opts S).1 = EXIT_FAILURE ∧
    (Urho3DMain plat fs I Opts S).2.submitted = S.submitted ∧
    (isDir fs (fixPath Opts.Urho3DHome) = false →
      (Urho3DMain plat fs I Opts S).2.includePaths = S.includePaths ∧
      (Urho3DMain plat fs I Opts S).2.loadedFiles = S.loadedFiles ∧
      (Urho3DMain plat fs I Opts S).2.interp = S.interp) := by
  have hc := checkUrho3DHome_cases plat fs I (fixPath Opts.Urho3DHome) S
  have hbad : (checkUrho3DHome plat fs I (fixPath Opts.Urho3DHome) S).1 = false ∧
      (checkUrho3DHome plat fs I (fixPath Opts.Urho3DHome) S).2.submitted = S.submitted := by
    rcases hc with ⟨⟨a0, a1, a2, a3, a4, a5⟩, _⟩ | ⟨_, hb⟩
    · rcases hfail with h | h | h | h | h | h <;> simp_all
    · exact hb
  have hmain : Urho3DMain plat fs I Opts S =
      (EXIT_FAILURE, (checkUrho3DHome plat fs I (fixPath Opts.Urho3DHome) S).2) := by
    simp only [Urho3DMain, hne, ne_eq, not_false_eq_true, if_true, hbad.1, Bool.not_false]
  rw [hmain]
  refine ⟨rfl, hbad.2, ?_⟩
  intro hd
  rw [checkUrho3DHome_missing_home plat fs I _ S hd]
  exact ⟨rfl, rfl, rfl⟩

/-! ## The staged execution driver -/

/-- The four `process` calls of `Urho3DMain` follow the fail-fast rule. -/
theorem runStages_eq {σ : Type} (I : Interpreter σ) (cmd : Str) (S : Session σ) :
    runStages I cmd S =
      submitUntilFailure I [cmd, contextStatement, applicationStatement, runStatement] S := by
  rfl

/-- What the fail-fast rule leaves in the log of `process` calls. -/
theorem submitUntilFailure_log {σ : Type} (I : Interpreter σ) :
    ∀ (stages : List Str) (S : Session σ),
      ∃ new : List (Str × CompilationResult),
        (submitUntilFailure I stages S).2.submitted = S.submitted ++ new ∧
        new.map Prod.fst <+: stages ∧
        (∀ e ∈ new.dropLast, e.2 ≠ CompilationResult.kFailure) ∧
        (new.length < stages.length →
          ∃ e, new.getLast? = some e ∧ e.2 = CompilationResult.kFailure) ∧
        ((submitUntilFailure I stages S).1 = EXIT_FAILURE ↔
          ∃ e ∈ new, e.2 = CompilationResult.kFailure) ∧
        ((submitUntilFailure I stages S).1 ≠ EXIT_FAILURE →
          (submitUntilFailure I stages S).1 = 0 ∧ new.length = stages.length) := by
  intro stages
  induction stages with
  | nil =>
    intro S
    refine ⟨[], by simp [submitUntilFailure], by simp, by simp, by simp, ?_, ?_⟩
    · simp [submitUntilFailure, EXIT_FAILURE]
    · simp [submitUntilFailure]
  | cons text stages ih =>
    intro S
    by_cases hr : (S.process I text).1 = CompilationResult.kFailure
    · have hout : submitUntilFailure I (text :: stages) S = (EXIT_FAILURE, (S.process I text).2) := by
        simp only [submitUntilFailure, hr, if_true]
      rw [hout]
      refine ⟨[(text, (S.process I text).1)], rfl, ?_, by simp, ?_, ?_, by simp⟩
      · simp
      · intro _; exact ⟨_, rfl, hr⟩
      · simp [hr]
    · have hout : submitUntilFailure I (text :: stages) S =
          submitUntilFailure I stages (S.process I text).2 := by
        simp only [submitUntilFailure, hr, if_false]
      obtain ⟨new, h1, h2, h3, h4, h5, h6⟩ := ih (S.process I text).2
      rw [hout]
      refine ⟨(text, (S.process I text).1) :: new, ?_, ?_, ?_, ?_, ?_, ?_⟩
      · rw [h1]; simp [Session.process]
      · simpa using h2
      · intro e he
        cases new with
        | nil => simp at he
        | cons a new =>
          rw [List.dropLast_cons₂] at he
          rcases List.mem_cons.mp he with rfl | he
          · exact hr
          · exact h3 e he
      · intro hlt
        simp only [List.length_cons, Nat.add_lt_add_iff_right] at hlt
        obtain ⟨e, he1, he2⟩ := h4 hlt
        refine ⟨e, ?_, he2⟩
        cases new with
        | nil => simp at he1
        | cons a new => simpa using he1
      · rw [h5]
        constructor
        · rintro ⟨e, he, hf⟩; exact ⟨e, List.mem_cons_of_mem _ he, hf⟩
        · rintro ⟨e, he, hf⟩
          rcases List.mem_cons.mp he with rfl | he
          · exact absurd hf hr
          · exact ⟨e, he, hf⟩
      · intro hne
        obtain ⟨a, b⟩ := h6 hne
        exact ⟨a, by simp [b]⟩

/-- Behind a precondition block that passes, `Urho3DMain` is the synthesis followed by the
four stages. -/
theorem Urho3DMain_of_preconditionsPass {σ : Type} (plat : Platform) (fs : FileSystem)
    (I : Interpreter σ) (Opts : InvocationOptions) (S : Session σ)
    (hp : preconditionsPass plat fs Opts) :
    Urho3DMain plat fs I Opts S =
      synthesizeAndRun plat fs I Opts (localHome Opts)
        (sessionAfterPreconditions plat I Opts S) := by
  by_cases hne : Opts.Urho3DHome = []
  · simp only [Urho3DMain, localHome, sessionAfterPreconditions, hne, ne_eq,
      not_true_eq_false, if_false]
  · have hc := checkUrho3DHome_cases plat fs I (fixPath Opts.Urho3DHome) S
    rcases hp with hp | ⟨a0, a1, a2, a3, a4, a5⟩
    · exact absurd hp hne
    · rcases hc with ⟨_, hc⟩ | ⟨hbad, _⟩
      · simp only [Urho3DMain, localHome, sessionAfterPreconditions, hne, ne_eq,
          not_false_eq_true, if_true, hc, Bool.not_true, Bool.false_eq_true, if_false]
      · rcases hbad with h | h | h | h | h | h <;> simp_all

theorem scan_submitted {σ : Type} (I : Interpreter σ) :
    ∀ (l : DirListing) (path : Str) (st : ScanState σ),
      (getSourceCodeFilesInDirectory I path l st).session.submitted = st.session.submitted := by
  intro l
  induction l with
  | nil => intro path st; rfl
  | dir name children rest ihc ihr =>
    intro path st
    simp only [getSourceCodeFilesInDirectory]
    rw [ihr, ihc]
    rfl
  | file name rest ih =>
    intro path st
    simp only [getSourceCodeFilesInDirectory]
    split_ifs <;> rw [ih]
  | other name rest ih =>
    intro path st
    simp only [getSourceCodeFilesInDirectory]
    rw [ih]

theorem loadPaths_submitted {σ : Type} (fs : FileSystem) (I : Interpreter σ) :
    ∀ (paths : List Str) (cmd : Str) (S : Session σ),
      (loadPaths fs I paths (cmd, S)).2.submitted = S.submitted := by
  intro paths
  induction paths with
  | nil => intro cmd S; rfl
  | cons path paths ih =>
    intro cmd S
    simp only [loadPaths]
    cases hd : fs.directory path with
    | none => simp only [ih]
    | some listing =>
      simp only [ih, scan_submitted]
      rfl

theorem synthesize_submitted {σ : Type} (plat : Platform) (fs : FileSystem)
    (I : Interpreter σ) (Opts : InvocationOptions) (home : Str) (S : Session σ) :
    (synthesize plat fs I Opts home S).2.submitted = S.submitted := by
  simp only [synthesize, loadPaths_submitted]

theorem sessionAfterPreconditions_submitted {σ : Type} (plat : Platform)
    (I : Interpreter σ) (Opts : InvocationOptions) (S : Session σ) :
    (sessionAfterPreconditions plat I Opts S).submitted = S.submitted := by
  unfold sessionAfterPreconditions
  split_ifs <;> rfl

/-- C3: when the preconditions pass, the `process` calls `Urho3DMain` makes are, in order,
a non-empty prefix of the four stages (definition unit, context construction, application
construction, `application->Run();`); no call before the last one reported failure; the
sequence is shorter than four only when its last call reported failure; the return value
is `EXIT_FAILURE` exactly when some call reported failure (and `0` otherwise, after all
four stages); and when stage 1 reports failure it is the only text submitted. The
interpreter is an arbitrary collaborator with an arbitrary state. -/
theorem C3_fail_fast_staging {σ : Type} (plat : Platform) (fs : FileSystem)
    (I : Interpreter σ) (Opts : InvocationOptions) (S : Session σ)
    (hp : preconditionsPass plat fs Opts) :
    ∃ new : List (Str × CompilationResult),
      (Urho3DMain plat fs I Opts S).2.submitted = S.submitted ++ new ∧
      new ≠ [] ∧
      new.map Prod.fst <+:
        [(synthesize plat fs I Opts (localHome Opts)
            (sessionAfterPreconditions plat I Opts S)).1,
          contextStatement, applicationStatement, runStatement] ∧
      (∀ e ∈ new.dropLast, e.2 ≠ CompilationResult.kFailure) ∧
      (new.length < 4 → ∃ e, new.getLast? = some e ∧ e.2 = CompilationResult.kFailure) ∧
      ((Urho3DMain plat fs I Opts S).1 = EXIT_FAILURE ↔
        ∃ e ∈ new, e.2 = CompilationResult.kFailure) ∧
      ((Urho3DMain plat fs I Opts S).1 ≠ EXIT_FAILURE →
        (Urho3DMain plat fs I Opts S).1 = 0 ∧ new.length = 4) ∧
      (new.head?.map Prod.snd = some CompilationResult.kFailure → new.length = 1) := by
  rw [Urho3DMain_of_preconditionsPass plat fs I Opts S hp]
  simp only [synthesizeAndRun, runStages_eq]
  obtain ⟨new, h1, h2, h3, h4, h5, h6⟩ := submitUntilFailure_log I
    [(synthesize plat fs I Opts (localHome Opts) (sessionAfterPreconditions plat I Opts S)).1,
      contextStatement, applicationStatement, runStatement]
    (synthesize plat fs I Opts (localHome Opts) (sessionAfterPreconditions plat I Opts S)).2
  rw [synthesize_submitted, sessionAfterPreconditions_submitted] at h1
  refine ⟨new, h1, ?_, h2, h3, ?_, h5, ?_, ?_⟩
  · rintro rfl
    obtain ⟨e, he, _⟩ := h4 (by simp)
    simp at he
  · intro hlt
    exact h4 (by simpa using hlt)
  · intro hne
    obtain ⟨a, b⟩ := h6 hne
    exact ⟨a, by simpa using b⟩
  · intro hh
    match new, h3, hh with
    | [], _, hh => simp at hh
    | [e], _, _ => rfl
    | e :: e2 :: rest, h3, hh =>
      simp only [List.head?_cons, Option.map_some', Option.some.injEq] at hh
      exact absurd hh (h3 e (by simp [List.dropLast]))

/-- Instance of C4: the home `/nowhere` is not a directory of the snapshot; `Urho3DMain`
returns `EXIT_FAILURE` and the session records no call at all. -/
theorem C4_fatal_precondition_witness :
    (scenarioOptions "/nowhere" ["root"] "" "App").Urho3DHome ≠ [] ∧
    isDir scenarioFS (fixPath (scenarioOptions "/nowhere" ["root"] "" "App").Urho3DHome)
      = false ∧
    (Urho3DMain Platform.other scenarioFS stubInterpreter
      (scenarioOptions "/nowhere" ["root"] "" "App") (Session.start ())).1 = EXIT_FAILURE ∧
    (Urho3DMain Platform.other scenarioFS stubInterpreter
      (scenarioOptions "/nowhere" ["root"] "" "App") (Session.start ())).2.submitted = [] ∧
    (Urho3DMain Platform.other scenarioFS stubInterpreter
      (scenarioOptions "/nowhere" ["root"] "" "App") (Session.start ())).2.includePaths = [] ∧
    (Urho3DMain Platform.other scenarioFS stubInterpreter
      (scenarioOptions "/nowhere" ["root"] "" "App") (Session.start ())).2.loadedFiles = [] :=
  have h := C4_fatal_precondition Platform.other scenarioFS stubInterpreter
    (scenarioOptions "/nowhere" ["root"] "" "App") (Session.start ()) (by decide)
    (Or.inl (by decide))
  ⟨by decide, by decide, h.1, h.2.1, (h.2.2 (by decide)).1, (h.2.2 (by decide)).2.1⟩

/-- Instance of C3: no framework home, nothing to load, and an interpreter that reports
failure for its second `process` call: two texts are submitted, the second being the
context construction, and the result is `EXIT_FAILURE`. -/
theorem C3_fail_fast_staging_witness :
    preconditionsPass Platform.other scenarioFS (scenarioOptions "" [] "" "App") ∧
    ((Urho3DMain Platform.other scenarioFS (failingAt 2)
      (scenarioOptions "" [] "" "App") (Session.start 0)).2.submitted.map Prod.snd
        = [CompilationResult.kSuccess, CompilationResult.kFailure]) ∧
    ((Urho3DMain Platform.other scenarioFS (failingAt 2)
      (scenarioOptions "" [] "" "App") (Session.start 0)).1 = EXIT_FAILURE) ∧
    ∃ new : List (Str × CompilationResult),
      (Urho3DMain Platform.other scenarioFS (failingAt 2)
        (scenarioOptions "" [] "" "App") (Session.start 0)).2.submitted = [] ++ new ∧
      new ≠ [] ∧
      (new.length < 4 → ∃ e, new.getLast? = some e ∧ e.2 = CompilationResult.kFailure) :=
  ⟨Or.inl rfl, by decide, by decide,
    (C3_fail_fast_staging Platform.other scenarioFS (failingAt 2)
      (scenarioOptions "" [] "" "App") (Session.start 0) (Or.inl rfl)).imp
      fun _ h => ⟨h.1, h.2.1, h.2.2.2.2.1⟩⟩

/-! ## The synthesised definition unit -/

theorem fixPath_nil : fixPath [] = [] := by decide

/-- The value of `urho3dResourceDir` follows the precedence of the spec. -/
theorem urho3dResourceDir_eq (Opts : InvocationOptions) :
    urho3dResourceDir Opts.Urho3DResourcePrefixPath (localHome Opts) =
      expectedResourcePrefix Opts := by
  unfold urho3dResourceDir expectedResourcePrefix localHome
  by_cases ho : Opts.Urho3DResourcePrefixPath = []
  · by_cases hh : Opts.Urho3DHome = []
    · simp only [ho, hh, ne_eq, not_true_eq_false, if_false, fixPath_nil]
    · have hn : fixPath Opts.Urho3DHome ≠ [] := fun h => hh ((fixPath_eq_nil _).mp h)
      simp only [ho, hh, hn, ne_eq, not_true_eq_false, not_false_eq_true, if_false, if_true]
  · simp only [ho, ne_eq, not_false_eq_true, if_true]

/-- The first `process` call of the staged sequence submits `cmd`. -/
theorem runStages_first {σ : Type} (I : Interpreter σ) (cmd : Str) (S : Session σ) :
    ∃ (r : CompilationResult) (rest : List (Str × CompilationResult)),
      (runStages I cmd S).2.submitted = S.submitted ++ (cmd, r) :: rest := by
  rw [runStages_eq]
  obtain ⟨new, h1, h2, _, h4, _⟩ := submitUntilFailure_log I
    [cmd, contextStatement, applicationStatement, runStatement] S
  match new, h1, h2, h4 with
  | [], _, _, h4 =>
    obtain ⟨e, he, _⟩ := h4 (by simp)
    simp at he
  | (t, r) :: rest, h1, h2, _ =>
    refine ⟨r, rest, ?_⟩
    rw [h1]
    simp only [List.map_cons] at h2
    obtain ⟨u, hu⟩ := h2
    simp only [List.cons_append, List.cons.injEq] at hu
    rw [hu.1]

/-- The text of the definition unit ends with the assignment of the resource prefix and
the two closing lines of the generated class. -/
theorem synthesize_suffix {σ : Type} (plat : Platform) (fs : FileSystem)
    (I : Interpreter σ) (Opts : InvocationOptions) (home : Str) (S : Session σ) :
    ("engineParameters_[EP_RESOURCE_PREFIX_PATHS] = \"".toList
        ++ urho3dResourceDir Opts.Urho3DResourcePrefixPath home
        ++ "\";".toList ++ NL ++ "\x7d".toList ++ NL ++ "\x7d;".toList ++ NL ++ NL)
      <:+ (synthesize plat fs I Opts home S).1 := by
  simp only [synthesize, classDeclaration, List.append_assoc]
  repeat (first
    | exact List.suffix_refl _
    | refine List.IsSuffix.trans ?_ (List.suffix_append _ _))

/-- C5: whenever `Urho3DMain` submits the definition unit (that is, behind a precondition
block that passes), the text submitted first ends with the line assigning
`engineParameters_[EP_RESOURCE_PREFIX_PATHS]` and the closing lines of the generated
class, and the string assigned is `fixPath` of the explicit override when that is not
empty (whatever the framework home), otherwise `fixPath` of the normalised framework home
followed by `/bin` when the framework home is not empty, otherwise the empty string. -/
theorem C5_resource_prefix_precedence {σ : Type} (plat : Platform) (fs : FileSystem)
    (I : Interpreter σ) (Opts : InvocationOptions) (S : Session σ)
    (hp : preconditionsPass plat fs Opts) :
    ∃ (cmd : Str) (r : CompilationResult) (rest : List (Str × CompilationResult)),
      (Urho3DMain plat fs I Opts S).2.submitted = S.submitted ++ (cmd, r) :: rest ∧
      ("engineParameters_[EP_RESOURCE_PREFIX_PATHS] = \"".toList
          ++ (if Opts.Urho3DResourcePrefixPath ≠ [] then fixPath Opts.Urho3DResourcePrefixPath
              else if Opts.Urho3DHome ≠ [] then
                fixPath (fixPath Opts.Urho3DHome ++ "/bin".toList)
              else [])
          ++ "\";".toList ++ NL ++ "\x7d".toList ++ NL ++ "\x7d;".toList ++ NL ++ NL)
        <:+ cmd := by
  rw [Urho3DMain_of_preconditionsPass plat fs I Opts S hp]
  obtain ⟨r, rest, h⟩ := runStages_first I
    (synthesize plat fs I Opts (localHome Opts) (sessionAfterPreconditions plat I Opts S)).1
    (synthesize plat fs I Opts (localHome Opts) (sessionAfterPreconditions plat I Opts S)).2
  rw [synthesize_submitted, sessionAfterPreconditions_submitted] at h
  refine ⟨_, r, rest, h, ?_⟩
  have hs := synthesize_suffix plat fs I Opts (localHome Opts)
    (sessionAfterPreconditions plat I Opts S)
  rw [urho3dResourceDir_eq] at hs
  exact hs

/-- The snapshot `scenarioFS` passes the precondition block for the home `\opt\\urho`,
whose normalised form is `/opt/urho`. -/
theorem scenario_preconditionsPass (paths : List String) (resource className : String) :
    preconditionsPass Platform.other scenarioFS
      (scenarioOptions "\\opt\\\\urho" paths resource className) :=
  Or.inr (by simp only [scenarioOptions]; decide)

/-- Instance of C5: with the home `\opt\\urho` and no override the string assigned is
`/opt/urho/bin`. -/
theorem C5_resource_prefix_precedence_witness :
    preconditionsPass Platform.other scenarioFS
      (scenarioOptions "\\opt\\\\urho" [] "" "App") ∧
    ∃ (cmd : Str) (r : CompilationResult) (rest : List (Str × CompilationResult)),
      (Urho3DMain Platform.other scenarioFS stubInterpreter
        (scenarioOptions "\\opt\\\\urho" [] "" "App") (Session.start ())).2.submitted
          = [] ++ (cmd, r) :: rest ∧
      "engineParameters_[EP_RESOURCE_PREFIX_PATHS] = \"/opt/urho/bin\";\n\x7d\n\x7d;\n\n".toList
        <:+ cmd :=
  ⟨scenario_preconditionsPass [] "" "App",
    C5_resource_prefix_precedence Platform.other scenarioFS stubInterpreter
      (scenarioOptions "\\opt\\\\urho" [] "" "App") (Session.start ())
      (scenario_preconditionsPass [] "" "App")⟩

/-! ## The recursive source scanner -/

theorem classifyExtension_source (ext : Str)
    (h : ext = ".cpp".toList ∨ ext = ".cc".toList ∨ ext = ".c".toList) :
    classifyExtension ext = Classification.CompilationUnit := by
  unfold classifyExtension
  rw [if_pos]
  simpa using h

theorem classifyExtension_header (ext : Str)
    (h1 : ¬ (ext = ".cpp".toList ∨ ext = ".cc".toList ∨ ext = ".c".toList))
    (h2 : ext = ".h".toList ∨ ext = ".hpp".toList) :
    classifyExtension ext = Classification.Header := by
  unfold classifyExtension
  rw [if_neg, if_pos]
  · simpa using h2
  · simpa using h1

theorem classifyExtension_other (ext : Str)
    (h1 : ¬ (ext = ".cpp".toList ∨ ext = ".cc".toList ∨ ext = ".c".toList))
    (h2 : ¬ (ext = ".h".toList ∨ ext = ".hpp".toList)) :
    classifyExtension ext = Classification.Other := by
  unfold classifyExtension
  rw [if_neg, if_neg]
  · simpa using h2
  · simpa using h1

theorem pathsTagged_nil (tag : Classification) (path : Str) :
    pathsTagged tag path DirListing.nil = [] := rfl

theorem pathsTagged_dir (tag : Classification) (path name : Str) (children rest : DirListing) :
    pathsTagged tag path (DirListing.dir name children rest) =
      (if Classification.Directory = tag then [fixPath (path ++ "/".toList ++ name)] else [])
        ++ pathsTagged tag (fixPath (path ++ "/".toList ++ name)) children
        ++ pathsTagged tag path rest := by
  simp only [pathsTagged, walk, List.filterMap_cons, List.filterMap_append]
  split_ifs <;> simp

theorem pathsTagged_file (tag : Classification) (path name : Str) (rest : DirListing) :
    pathsTagged tag path (DirListing.file name rest) =
      (if classifyExtension (extension name) = tag then [fixPath (path ++ "/".toList ++ name)]
        else []) ++ pathsTagged tag path rest := by
  simp only [pathsTagged, walk, List.filterMap_cons]
  split_ifs <;> simp

theorem pathsTagged_other (tag : Classification) (path name : Str) (rest : DirListing) :
    pathsTagged tag path (DirListing.other name rest) =
      (if Classification.Other = tag then [fixPath (path ++ "/".toList ++ name)] else [])
        ++ pathsTagged tag path rest := by
  simp only [pathsTagged, walk, List.filterMap_cons]
  split_ifs <;> simp

theorem AddIncludePaths_append {σ : Type} (I : Interpreter σ) (S : Session σ)
    (xs ys : List Str) :
    S.AddIncludePaths I (xs ++ ys) = (S.AddIncludePaths I xs).AddIncludePaths I ys := by
  simp only [Session.AddIncludePaths, List.foldl_append]

theorem AddIncludePaths_cons {σ : Type} (I : Interpreter σ) (S : Session σ)
    (x : Str) (xs : List Str) :
    S.AddIncludePaths I (x :: xs) = (S.AddIncludePath I x).AddIncludePaths I xs := rfl

/-- The scanner computes the classified enumeration of the tree: it appends the
compilation units to `files`, the headers to `headers`, and registers the
subdirectories, all in depth-first order. -/
theorem scan_eq {σ : Type} (I : Interpreter σ) :
    ∀ (l : DirListing) (path : Str) (st : ScanState σ),
      getSourceCodeFilesInDirectory I path l st =
        { session := st.session.AddIncludePaths I (pathsTagged Classification.Directory path l)
          files := st.files ++ pathsTagged Classification.CompilationUnit path l
          headers := st.headers ++ pathsTagged Classification.Header path l } := by
  intro l
  induction l with
  | nil =>
    intro path st
    simp [getSourceCodeFilesInDirectory, pathsTagged_nil, Session.AddIncludePaths]
  | dir name children rest ihc ihr =>
    intro path st
    simp only [getSourceCodeFilesInDirectory]
    rw [ihr, ihc]
    simp only [pathsTagged_dir, if_true, AddIncludePaths_append, AddIncludePaths_cons,
      List.append_assoc, List.nil_append, List.singleton_append]
    simp [Session.AddIncludePaths]
  | file name rest ih =>
    intro path st
    simp only [getSourceCodeFilesInDirectory]
    by_cases h1 : extension name = ".cpp".toList ∨ extension name = ".cc".toList ∨
        extension name = ".c".toList
    · rw [if_pos h1, ih]
      simp [pathsTagged_file, classifyExtension_source _ h1]
    · rw [if_neg h1]
      by_cases h2 : extension name = ".h".toList ∨ extension name = ".hpp".toList
      · rw [if_pos h2, ih]
        simp [pathsTagged_file, classifyExtension_header _ h1 h2]
      · rw [if_neg h2, ih]
        simp [pathsTagged_file, classifyExtension_other _ h1 h2]
  | other name rest ih =>
    intro path st
    simp only [getSourceCodeFilesInDirectory]
    rw [ih]
    simp [pathsTagged_other]

/-! ## Normalised paths keep the extension of the file name -/

theorem collapse_of_no_slash : ∀ (ys : Str), '/' ∉ ys → collapse ys = ys := by
  intro ys
  induction ys using collapse.induct with
  | case1 => intro _; rfl
  | case2 c => intro _; rfl
  | case3 a b rest hab ih =>
    intro h
    exact absurd (by simp [hab.1]) h
  | case4 a b rest hab ih =>
    intro h
    rw [collapse, if_neg hab, ih (fun hm => h (List.mem_cons_of_mem _ hm))]

theorem collapse_append_suffix :
    ∀ (n : Nat) (xs ys : Str), xs.length ≤ n → '/' ∉ ys → ys <:+ collapse (xs ++ ys) := by
  intro n
  induction n with
  | zero =>
    intro xs ys hn h
    have : xs = [] := List.length_eq_zero.mp (by omega)
    subst this
    rw [List.nil_append, collapse_of_no_slash ys h]
  | succ n ih =>
    intro xs ys hn h
    match xs, hn with
    | [], _ => rw [List.nil_append, collapse_of_no_slash ys h]
    | [c], _ =>
      cases ys with
      | nil => exact List.nil_suffix
      | cons d ys =>
        have hd : d ≠ '/' := fun e => h (by simp [e])
        have hcd : ¬ (c = '/' ∧ d = '/') := fun e => hd e.2
        show d :: ys <:+ collapse (c :: d :: ys)
        rw [collapse, if_neg hcd, collapse_of_no_slash _ h]
        exact List.suffix_cons _ _
    | c :: d :: rest, hn =>
      simp only [List.length_cons] at hn
      show ys <:+ collapse (c :: d :: (rest ++ ys))
      rw [collapse]
      split_ifs with hcd
      · exact (ih rest ys (by omega) h).trans (List.suffix_cons _ _)
      · exact (ih (d :: rest) ys (by simp; omega) h).trans (List.suffix_cons _ _)

/-- A tail without slash and backslash survives `fixPath` unchanged. -/
theorem fixPath_append_suffix (xs ys : Str) (h1 : '/' ∉ ys) (h2 : '\\' ∉ ys) :
    ys <:+ fixPath (xs ++ ys) := by
  rw [fixPath_eq]
  have : slashify (xs ++ ys) = slashify xs ++ ys := by
    have e := slashify_of_no_backslash ys h2
    simp only [slashify, List.map_append] at e ⊢
    rw [e]
  rw [this]
  exact collapse_append_suffix _ _ _ (Nat.le_refl _) h1

theorem extension_suffix (name : Str) : extension name <:+ name := by
  unfold extension
  cases find_last_of name '.' with
  | none => exact List.nil_suffix
  | some pos =>
    simp only
    split_ifs
    · exact List.nil_suffix
    · exact List.drop_suffix _ _

/-- Every path with a file tag ends with an extension that has this tag. -/
theorem pathsTagged_suffix (tag : Classification)
    (htag : tag = Classification.CompilationUnit ∨ tag = Classification.Header) :
    ∀ (l : DirListing) (path p : Str), p ∈ pathsTagged tag path l →
      ∃ ext, classifyExtension ext = tag ∧ ext <:+ p := by
  have hD : Classification.Directory ≠ tag := by rcases htag with h | h <;> simp [h]
  have hO : Classification.Other ≠ tag := by rcases htag with h | h <;> simp [h]
  intro l
  induction l with
  | nil => intro path p h; simp [pathsTagged_nil] at h
  | dir name children rest ihc ihr =>
    intro path p h
    rw [pathsTagged_dir, if_neg hD] at h
    simp only [List.nil_append, List.mem_append] at h
    rcases h with h | h
    · exact ihc _ p h
    · exact ihr _ p h
  | file name rest ih =>
    intro path p h
    rw [pathsTagged_file] at h
    simp only [List.mem_append] at h
    rcases h with h | h
    · split_ifs at h with hc
      · simp only [List.mem_singleton] at h
        refine ⟨extension name, hc, ?_⟩
        obtain ⟨stem, hstem⟩ := extension_suffix name
        have hsep : '/' ∉ extension name ∧ '\\' ∉ extension name := by
          have hmem : extension name ∈ [".cpp".toList, ".cc".toList, ".c".toList, ".h".toList,
              ".hpp".toList] := by
            unfold classifyExtension at hc
            split_ifs at hc with a b
            · simp only [List.mem_cons, List.mem_singleton, List.not_mem_nil, or_false] at a ⊢
              tauto
            · simp only [List.mem_cons, List.mem_singleton, List.not_mem_nil, or_false] at b ⊢
              tauto
            · exact absurd hc hO
          simp only [List.mem_cons, List.mem_singleton, List.not_mem_nil, or_false] at hmem
          rcases hmem with e | e | e | e | e <;> rw [e] <;> decide
        rw [h]
        have := fixPath_append_suffix (path ++ "/".toList ++ stem) (extension name)
          hsep.1 hsep.2
        rwa [List.append_assoc, hstem] at this
      · simp at h
    · exact ih _ p h
  | other name rest ih =>
    intro path p h
    rw [pathsTagged_other, if_neg hO] at h
    exact ih _ p (by simpa using h)

/-- No path is both a compilation unit and a header, whatever trees they come from. -/
theorem units_headers_disjoint (l1 l2 : DirListing) (path1 path2 p : Str)
    (h1 : p ∈ pathsTagged Classification.CompilationUnit path1 l1) :
    p ∉ pathsTagged Classification.Header path2 l2 := by
  intro h2
  obtain ⟨e1, c1, s1⟩ := pathsTagged_suffix _ (Or.inl rfl) l1 path1 p h1
  obtain ⟨e2, c2, s2⟩ := pathsTagged_suffix _ (Or.inr rfl) l2 path2 p h2
  have m1 : e1 ∈ [".cpp".toList, ".cc".toList, ".c".toList] := by
    unfold classifyExtension at c1
    split_ifs at c1 with a
    exact a
  have m2 : e2 ∈ [".h".toList, ".hpp".toList] := by
    unfold classifyExtension at c2
    split_ifs at c2 with a b
    exact b
  have hcmp : e1 <:+ e2 ∨ e2 <:+ e1 := by
    rcases Nat.le_total e1.length e2.length with hl | hl
    · exact Or.inl (List.suffix_of_suffix_length_le s1 s2 hl)
    · exact Or.inr (List.suffix_of_suffix_length_le s2 s1 hl)
  simp only [List.mem_cons, List.mem_singleton, List.not_mem_nil, or_false] at m1 m2
  rcases m1 with rfl | rfl | rfl <;> rcases m2 with rfl | rfl <;>
    rcases hcmp with h | h <;> revert h <;> decide

/-! ## Normalised full paths on well-named trees -/

theorem collapse_of_noDoubleSlash : ∀ (q : Str), noDoubleSlash q = true → collapse q = q := by
  intro q
  induction q using collapse.induct with
  | case1 => intro _; rfl
  | case2 c => intro _; rfl
  | case3 a b rest hab ih =>
    intro h
    simp [noDoubleSlash, hab.1, hab.2] at h
  | case4 a b rest hab ih =>
    intro h
    simp only [noDoubleSlash, Bool.and_eq_true] at h
    rw [collapse, if_neg hab, ih h.2]

theorem noDoubleSlash_of_no_slash : ∀ (q : Str), '/' ∉ q → noDoubleSlash q = true := by
  intro q
  induction q with
  | nil => intro _; rfl
  | cons c q ih =>
    intro h
    simp only [List.mem_cons, not_or] at h
    cases q with
    | nil => rfl
    | cons d q =>
      have hc : c ≠ '/' := fun e => h.1 e.symm
      simp only [noDoubleSlash, Bool.and_eq_true, Bool.not_eq_true', Bool.and_eq_false_imp,
        beq_iff_eq]
      exact ⟨fun e => absurd e hc, ih h.2⟩

theorem noDoubleSlash_append :
    ∀ (a b : Str), noDoubleSlash a = true → noDoubleSlash b = true →
      (a.getLast? ≠ some '/' ∨ b.head? ≠ some '/') → noDoubleSlash (a ++ b) = true := by
  intro a
  induction a with
  | nil => intro b _ hb _; simpa using hb
  | cons c a ih =>
    intro b ha hb hj
    cases a with
    | nil =>
      cases b with
      | nil => rfl
      | cons d b =>
        simp only [List.singleton_append, noDoubleSlash, Bool.and_eq_true, Bool.not_eq_true',
          Bool.and_eq_false_imp, beq_iff_eq, beq_eq_false_iff_ne, ne_eq]
        refine ⟨?_, hb⟩
        intro hc hd
        subst hc hd
        simp at hj
    | cons d a =>
      simp only [noDoubleSlash, Bool.and_eq_true] at ha
      simp only [List.cons_append, noDoubleSlash, Bool.and_eq_true]
      refine ⟨ha.1, ?_⟩
      have := ih b ha.2 hb (by simpa [List.getLast?_cons_cons] using hj)
      simpa using this

theorem collapse_length : ∀ (q : Str),
    (collapse q).length ≤ q.length ∧
      (noDoubleSlash q = false → (collapse q).length < q.length) := by
  intro q
  induction q using collapse.induct with
  | case1 => simp [collapse, noDoubleSlash]
  | case2 c => simp [collapse, noDoubleSlash]
  | case3 a b rest hab ih =>
    rw [collapse, if_pos hab]
    simp only [List.length_cons]
    exact ⟨by omega, fun _ => by omega⟩
  | case4 a b rest hab ih =>
    rw [collapse, if_neg hab]
    have hnd : noDoubleSlash (a :: b :: rest) = noDoubleSlash (b :: rest) := by
      have : (a == '/' && b == '/') = false := by
        simp only [Bool.and_eq_false_imp, beq_iff_eq, beq_eq_false_iff_ne]
        exact fun h1 h2 => hab ⟨h1, h2⟩
      simp only [noDoubleSlash, this, Bool.not_false, Bool.true_and]
    rw [hnd]
    simp only [List.length_cons] at ih ⊢
    exact ⟨by omega, fun h => by have := ih.2 h; omega⟩

/-- The second pass leaves exactly the strings without doubled slash unchanged. -/
theorem collapse_eq_self_iff (q : Str) : collapse q = q ↔ noDoubleSlash q = true := by
  constructor
  · intro h
    cases hq : noDoubleSlash q with
    | true => rfl
    | false =>
      have := (collapse_length q).2 hq
      rw [h] at this
      omega
  · exact collapse_of_noDoubleSlash q

/-- Normalising twice equals normalising once exactly when the first result has no
doubled slash. -/
theorem fixPath_idempotent_iff (path : Str) :
    fixPath (fixPath path) = fixPath path ↔ noDoubleSlash (fixPath path) = true := by
  have hb : '\\' ∉ fixPath path := fun h => (mem_fixPath _ path h).1 rfl
  rw [fixPath_eq (fixPath path), slashify_of_no_backslash _ hb]
  exact collapse_eq_self_iff _

theorem collapse_head : ∀ (q : Str), (collapse q).head? = q.head? := by
  intro q
  match q with
  | [] => rfl
  | [c] => rfl
  | c :: d :: rest =>
    rw [collapse]
    split_ifs with h
    · simp [h.1]
    · rfl

theorem noDoubleSlash_cons (c : Char) (q : Str) :
    noDoubleSlash (c :: q) = true ↔
      ¬ (c = '/' ∧ q.head? = some '/') ∧ noDoubleSlash q = true := by
  cases q with
  | nil => simp [noDoubleSlash]
  | cons d q =>
    simp only [noDoubleSlash, Bool.and_eq_true, Bool.not_eq_true', Bool.and_eq_false_imp,
      beq_iff_eq, beq_eq_false_iff_ne, ne_eq, List.head?_cons, Option.some.injEq, not_and]

theorem noTripleSlash_tail (c : Char) (q : Str) (h : noTripleSlash (c :: q) = true) :
    noTripleSlash q = true := by
  match q, h with
  | [], _ => rfl
  | [d], _ => rfl
  | d :: e :: rest, h =>
    simp only [noTripleSlash, Bool.and_eq_true] at h
    exact h.2

/-- On a string without three adjacent slashes the second pass leaves no doubled slash. -/
theorem collapse_noDoubleSlash : ∀ (q : Str), noTripleSlash q = true →
    noDoubleSlash (collapse q) = true := by
  intro q
  induction q using collapse.induct with
  | case1 => intro _; rfl
  | case2 c => intro _; rfl
  | case3 a b rest hab ih =>
    intro h
    obtain ⟨rfl, rfl⟩ := hab
    rw [collapse, if_pos ⟨rfl, rfl⟩, noDoubleSlash_cons, collapse_head]
    refine ⟨?_, ih (noTripleSlash_tail _ _ (noTripleSlash_tail _ _ h))⟩
    rintro ⟨_, hh⟩
    cases rest with
    | nil => simp at hh
    | cons e rest =>
      simp only [List.head?_cons, Option.some.injEq] at hh
      subst hh
      simp [noTripleSlash] at h
  | case4 a b rest hab ih =>
    intro h
    rw [collapse, if_neg hab, noDoubleSlash_cons, collapse_head]
    refine ⟨?_, ih (noTripleSlash_tail _ _ h)⟩
    rintro ⟨h1, h2⟩
    simp only [List.head?_cons, Option.some.injEq] at h2
    exact hab ⟨h1, h2⟩

/-- When the path, with its backslashes turned into slashes, has no run of three
slashes, the result of `fixPath` has no doubled slash and `fixPath` is idempotent on it. -/
theorem fixPath_of_noTripleSlash (path : Str) (h : noTripleSlash (slashify path) = true) :
    noDoubleSlash (fixPath path) = true ∧ fixPath (fixPath path) = fixPath path := by
  have hd : noDoubleSlash (fixPath path) = true := by
    rw [fixPath_eq]
    exact collapse_noDoubleSlash _ h
  exact ⟨hd, (fixPath_idempotent_iff path).mpr hd⟩

/-- Appending a slash and a usable name to a clean path gives a clean path, which
`fixPath` leaves as it is. -/
theorem fixPath_clean (path name : Str) (hp : cleanPath path) (hn : cleanName name) :
    fixPath (path ++ "/".toList ++ name) = path ++ "/".toList ++ name ∧
    cleanPath (path ++ "/".toList ++ name) := by
  obtain ⟨p1, p2, p3⟩ := hp
  obtain ⟨n1, n2, n3⟩ := hn
  have hb : '\\' ∉ path ++ "/".toList ++ name := by
    simp only [List.mem_append, not_or]
    exact ⟨⟨p1, by decide⟩, n3⟩
  have hhead : name.head? ≠ some '/' := by
    cases name with
    | nil => simp
    | cons c name =>
      simp only [List.head?_cons, ne_eq, Option.some.injEq]
      intro e
      exact n2 (by simp [e])
  have hds : noDoubleSlash (path ++ "/".toList ++ name) = true := by
    apply noDoubleSlash_append
    · exact noDoubleSlash_append path "/".toList p2 rfl (Or.inl p3)
    · exact noDoubleSlash_of_no_slash name n2
    · exact Or.inr hhead
  have hlast : (path ++ "/".toList ++ name).getLast? ≠ some '/' := by
    rw [List.getLast?_append_of_ne_nil _ n1]
    intro e
    exact n2 (List.mem_of_getLast?_eq_some e)
  refine ⟨?_, hb, hds, hlast⟩
  rw [fixPath_eq, slashify_of_no_backslash _ hb, collapse_of_noDoubleSlash _ hds]

/-- Below a clean root, the normalised full paths of a well-named tree are the plain
concatenations of root, directory names and entry name. -/
theorem walk_eq_plainPaths :
    ∀ (l : DirListing) (root : Str), cleanPath root → wellNamed l →
      (walk root l).map Prod.snd = plainPaths root l := by
  intro l
  induction l with
  | nil => intro root _ _; rfl
  | dir name children rest ihc ihr =>
    intro root hr hl
    obtain ⟨hn, hc, hrest⟩ := hl
    obtain ⟨e, hclean⟩ := fixPath_clean root name hr hn
    simp only [walk, plainPaths, List.map_cons, List.map_append, e]
    rw [ihc _ hclean hc, ihr _ hr hrest]
  | file name rest ih =>
    intro root hr hl
    obtain ⟨hn, hrest⟩ := hl
    obtain ⟨e, _⟩ := fixPath_clean root name hr hn
    simp only [walk, plainPaths, List.map_cons, e]
    rw [ih _ hr hrest]
  | other name rest ih =>
    intro root hr hl
    obtain ⟨hn, hrest⟩ := hl
    obtain ⟨e, _⟩ := fixPath_clean root name hr hn
    simp only [walk, plainPaths, List.map_cons, e]
    rw [ih _ hr hrest]

theorem pathsTagged_sublist (tag : Classification) (path : Str) (l : DirListing) :
    List.Sublist (pathsTagged tag path l) ((walk path l).map Prod.snd) := by
  unfold pathsTagged
  generalize walk path l = es
  induction es with
  | nil => simp
  | cons e es ih =>
    simp only [List.filterMap_cons, List.map_cons]
    split_ifs
    · exact ih.cons₂ _
    · exact ih.cons _

theorem discoveredUnits_skip (fs : FileSystem) (path : Str) (paths : List Str)
    (h : fs.directory path = none) :
    discoveredUnits fs (path :: paths) = discoveredUnits fs paths := by
  simp [discoveredUnits, loadedDirectories, List.filterMap_cons, h]

theorem discoveredUnits_dir (fs : FileSystem) (path : Str) (paths : List Str)
    (listing : DirListing) (h : fs.directory path = some listing) :
    discoveredUnits fs (path :: paths) =
      pathsTagged Classification.CompilationUnit path listing ++ discoveredUnits fs paths := by
  simp [discoveredUnits, loadedDirectories, List.filterMap_cons, h]

theorem discoveredHeaders_skip (fs : FileSystem) (path : Str) (paths : List Str)
    (h : fs.directory path = none) :
    discoveredHeaders fs (path :: paths) = discoveredHeaders fs paths := by
  simp [discoveredHeaders, loadedDirectories, List.filterMap_cons, h]

theorem discoveredHeaders_dir (fs : FileSystem) (path : Str) (paths : List Str)
    (listing : DirListing) (h : fs.directory path = some listing) :
    discoveredHeaders fs (path :: paths) =
      pathsTagged Classification.Header path listing ++ discoveredHeaders fs paths := by
  simp [discoveredHeaders, loadedDirectories, List.filterMap_cons, h]

/-- The loop over paths-to-load appends one include line per discovered compilation
unit, in order. -/
theorem loadPaths_cmd {σ : Type} (fs : FileSystem) (I : Interpreter σ) :
    ∀ (paths : List Str) (cmd : Str) (S : Session σ),
      (loadPaths fs I paths (cmd, S)).1 =
        cmd ++ ((discoveredUnits fs paths).map includeLine).flatten := by
  intro paths
  induction paths with
  | nil => intro cmd S; simp [loadPaths, discoveredUnits, loadedDirectories]
  | cons path paths ih =>
    intro cmd S
    cases hd : fs.directory path with
    | none =>
      simp only [loadPaths, hd]
      rw [ih, discoveredUnits_skip fs path paths hd]
    | some listing =>
      simp only [loadPaths, hd]
      rw [ih, discoveredUnits_dir fs path paths listing hd, scan_eq]
      simp [List.append_assoc]

theorem includeLine_injective (a b : Str) (h : includeLine a = includeLine b) : a = b := by
  unfold includeLine at h
  simp only [List.append_assoc] at h
  exact List.append_cancel_right (List.append_cancel_left h)

theorem mem_discoveredUnits (fs : FileSystem) (paths : List Str) (p : Str)
    (h : p ∈ discoveredUnits fs paths) :
    ∃ path listing, p ∈ pathsTagged Classification.CompilationUnit path listing := by
  simp only [discoveredUnits, List.mem_flatten, List.mem_map] at h
  obtain ⟨_, ⟨d, _, rfl⟩, hp⟩ := h
  exact ⟨d.1, d.2, hp⟩

theorem mem_discoveredHeaders (fs : FileSystem) (paths : List Str) (p : Str)
    (h : p ∈ discoveredHeaders fs paths) :
    ∃ path listing, p ∈ pathsTagged Classification.Header path listing := by
  simp only [discoveredHeaders, List.mem_flatten, List.mem_map] at h
  obtain ⟨_, ⟨d, _, rfl⟩, hp⟩ := h
  exact ⟨d.1, d.2, hp⟩

/-! ## The lines of the definition unit -/

theorem splitLines_line (l rest : Str) (h : '\n' ∉ l) :
    splitLines (l ++ '\n' :: rest) = l :: splitLines rest := by
  induction l with
  | nil => simp [splitLines]
  | cons c l ih =>
    simp only [List.mem_cons, not_or] at h
    have hc : c ≠ '\n' := fun e => h.1 e.symm
    have e := ih h.2
    simp only [List.cons_append, splitLines, if_neg hc]
    rw [show l.append ('\n' :: rest) = l ++ '\n' :: rest from rfl, e]

theorem splitLines_joinLines (ls : List Str) (h : ∀ l ∈ ls, '\n' ∉ l) :
    splitLines (joinLines ls) = ls ++ [[]] := by
  induction ls with
  | nil => rfl
  | cons l ls ih =>
    have e : joinLines (l :: ls) = l ++ '\n' :: joinLines ls := by
      simp [joinLines, NL]
    rw [e, splitLines_line l _ (h l (List.mem_cons_self _ _)),
      ih (fun l' hl' => h l' (List.mem_cons_of_mem _ hl'))]
    rfl

/-- Without caller-supplied defines and compilation units the definition unit is the
text of these lines: the fixed macros, the umbrella include, the platform shims and the
class declaration. -/
theorem definitionUnit_eq_joinLines (plat : Platform) (cls dir : Str) :
    cmdPreamble plat [] ++ (classDeclaration cls dir ++ NL) =
      joinLines (fixedDefines ++ [umbrellaInclude] ++ shimLines plat ++ classLines cls dir) := by
  cases plat <;>
    simp only [joinLines, cmdPreamble, platformShims, shimLines, classLines, classDeclaration,
      fixedDefines, List.map_cons, List.map_nil, List.map_append, List.flatten_cons,
      List.flatten_nil, List.flatten_append, List.append_assoc, List.nil_append,
      List.append_nil, List.cons_append]

theorem fixedLines_facts (plat : Platform) :
    (∀ l ∈ fixedDefines ++ [umbrellaInclude] ++ shimLines plat, '\n' ∉ l) ∧
    (∀ d ∈ fixedDefines,
      (fixedDefines ++ [umbrellaInclude] ++ shimLines plat).count d = 1 ∧
        d.head? = some '#') ∧
    ((fixedDefines ++ [umbrellaInclude] ++ shimLines plat).count umbrellaInclude = 1 ∧
      umbrellaInclude.head? = some '#') ∧
    (∀ l ∈ fixedDefines ++ [umbrellaInclude] ++ shimLines plat,
      "#include".toList <+: l → l = umbrellaInclude) := by
  cases plat <;> decide

theorem classLines_head (cls dir : Str) :
    ∀ l ∈ classLines cls dir ++ [[]], l.head? ≠ some '#' := by
  intro l hl
  simp only [classLines, List.cons_append, List.nil_append, List.mem_cons,
    List.mem_singleton, List.not_mem_nil, or_false] at hl
  rcases hl with rfl | rfl | rfl | rfl | rfl | rfl | rfl | rfl | rfl | rfl
  · exact fun h => absurd (show some 'c' = some '#' from h) (by decide)
  · decide
  · exact fun h => absurd (show some 'U' = some '#' from h) (by decide)
  · exact fun h => absurd (show some 'U' = some '#' from h) (by decide)
  · decide
  · exact fun h => absurd (show some 'e' = some '#' from h) (by decide)
  · decide
  · decide
  · decide
  · decide

theorem classLines_no_newline (cls dir : Str) (hcls : '\n' ∉ cls) (hdir : '\n' ∉ dir) :
    ∀ l ∈ classLines cls dir, '\n' ∉ l := by
  intro l hl
  simp only [classLines, List.mem_cons, List.mem_singleton, List.not_mem_nil, or_false] at hl
  rcases hl with rfl | rfl | rfl | rfl | rfl | rfl | rfl | rfl | rfl
  · simp only [List.mem_append, not_or]; exact ⟨by decide, hcls⟩
  · decide
  · simp only [List.mem_append, not_or]; exact ⟨⟨by decide, hcls⟩, by decide⟩
  · simp only [List.mem_append, not_or]; exact ⟨⟨by decide, hcls⟩, by decide⟩
  · decide
  · simp only [List.mem_append, not_or]; exact ⟨⟨by decide, hdir⟩, by decide⟩
  · decide
  · decide
  · decide

/-- The lines of the definition unit when there are no caller-supplied defines and no
compilation units, for a class name and a resource directory without line break. -/
theorem definitionUnit_lines (plat : Platform) (cls dir : Str)
    (hcls : '\n' ∉ cls) (hdir : '\n' ∉ dir) :
    splitLines (cmdPreamble plat [] ++ (classDeclaration cls dir ++ NL)) =
      (fixedDefines ++ [umbrellaInclude] ++ shimLines plat) ++ (classLines cls dir ++ [[]]) := by
  rw [definitionUnit_eq_joinLines, splitLines_joinLines, List.append_assoc]
  intro l hl
  rcases List.mem_append.mp hl with h | h
  · exact (fixedLines_facts plat).1 l h
  · exact classLines_no_newline cls dir hcls hdir l h

theorem count_of_head_hash (A B : List Str) (d : Str) (hd : d.head? = some '#')
    (hB : ∀ l ∈ B, l.head? ≠ some '#') : (A ++ B).count d = A.count d := by
  rw [List.count_append, List.count_eq_zero.mpr (fun hm => hB d hm hd), Nat.add_zero]

/-- With an interpreter that reports success for every text all stages are submitted
and the result is `0`. -/
theorem submitUntilFailure_success {σ : Type} (I : Interpreter σ)
    (hI : ∀ s t, (I.process s t).1 = CompilationResult.kSuccess) :
    ∀ (stages : List Str) (S : Session σ),
      (submitUntilFailure I stages S).1 = 0 ∧
      (submitUntilFailure I stages S).2.submitted =
        S.submitted ++ stages.map fun t => (t, CompilationResult.kSuccess) := by
  intro stages
  induction stages with
  | nil => intro S; simp [submitUntilFailure]
  | cons t stages ih =>
    intro S
    have hr : (S.process I t).1 = CompilationResult.kSuccess := hI _ _
    have hout : submitUntilFailure I (t :: stages) S =
        submitUntilFailure I stages (S.process I t).2 := by
      simp only [submitUntilFailure, hr]
      rfl
    rw [hout]
    obtain ⟨h1, h2⟩ := ih (S.process I t).2
    refine ⟨h1, ?_⟩
    rw [h2]
    simp only [Session.process, hI, List.map_cons, List.append_assoc, List.singleton_append]

/-- C7 as stated fails on the code: the class name and the resource prefix are copied
into the definition unit as they are, so a line break in one of them adds lines. With the
class name `App`, a line break and `#include <Urho3DAll.h>` (all preconditions passing, no
defines, an empty directory to load, the stub interpreter) the umbrella include line
occurs twice in the text submitted first; with a resource-prefix override holding a line
break and `#include <more.h>` that text has an `#include` line other than the umbrella
include. -/
theorem C7_counterexample :
    (preconditionsPass Platform.other scenarioFS
        (scenarioOptions "\\opt\\\\urho" ["empty"] "" "App\n#include <Urho3DAll.h>") ∧
      (scenarioOptions "\\opt\\\\urho" ["empty"] "" "App\n#include <Urho3DAll.h>").Defines
        = [] ∧
      discoveredUnits scenarioFS ["empty".toList] = [] ∧
      (splitLines (firstSubmitted (Urho3DMain Platform.other scenarioFS stubInterpreter
        (scenarioOptions "\\opt\\\\urho" ["empty"] "" "App\n#include <Urho3DAll.h>")
        (Session.start ())).2)).count umbrellaInclude = 2) ∧
    (preconditionsPass Platform.other scenarioFS
        (scenarioOptions "\\opt\\\\urho" ["empty"] "res\n#include <more.h>" "App") ∧
      "#include <more.h>\";".toList ∈
        splitLines (firstSubmitted (Urho3DMain Platform.other scenarioFS stubInterpreter
          (scenarioOptions "\\opt\\\\urho" ["empty"] "res\n#include <more.h>" "App")
          (Session.start ())).2)) :=
  ⟨⟨scenario_preconditionsPass _ _ _, rfl, by decide, by decide⟩,
    ⟨scenario_preconditionsPass _ _ _, by decide⟩⟩

/-- C7, amended: given options that pass the precondition block, no caller-supplied
defines, paths-to-load whose scans yield no compilation unit, an interpreter that reports
success for every text, and an application class name and a resource-prefix string
without line break, `Urho3DMain` submits exactly the four stages in the fixed order and
returns `0`, and the text of stage 1 contains each of the nine fixed `#define` lines
exactly once, the line `#include <Urho3DAll.h>` exactly once and no other line that
starts with `#include`. -/
theorem C7_end_to_end_empty_tree {σ : Type} (plat : Platform) (fs : FileSystem)
    (I : Interpreter σ) (Opts : InvocationOptions) (S : Session σ)
    (hp : preconditionsPass plat fs Opts)
    (hdef : Opts.Defines = [])
    (hunits : discoveredUnits fs Opts.PathsToLoad = [])
    (hI : ∀ s t, (I.process s t).1 = CompilationResult.kSuccess)
    (hcls : '\n' ∉ Opts.ApplicationClassName)
    (hdir : '\n' ∉ expectedResourcePrefix Opts) :
    ∃ cmd : Str,
      (Urho3DMain plat fs I Opts S).1 = 0 ∧
      (Urho3DMain plat fs I Opts S).2.submitted = S.submitted ++
        [(cmd, CompilationResult.kSuccess), (contextStatement, CompilationResult.kSuccess),
         (applicationStatement, CompilationResult.kSuccess),
         (runStatement, CompilationResult.kSuccess)] ∧
      (∀ d ∈ fixedDefines, (splitLines cmd).count d = 1) ∧
      (splitLines cmd).count umbrellaInclude = 1 ∧
      (∀ l ∈ splitLines cmd, "#include".toList <+: l → l = umbrellaInclude) := by
  have hcmd : (synthesize plat fs I Opts (localHome Opts)
      (sessionAfterPreconditions plat I Opts S)).1 =
      cmdPreamble plat [] ++
        (classDeclaration Opts.ApplicationClassName (expectedResourcePrefix Opts) ++ NL) := by
    simp only [synthesize, loadPaths_cmd, urho3dResourceDir_eq, hunits, hdef, List.map_nil,
      List.flatten_nil, List.append_nil]
  have hlines := definitionUnit_lines plat Opts.ApplicationClassName
    (expectedResourcePrefix Opts) hcls hdir
  obtain ⟨f1, f2, f3, f4⟩ := fixedLines_facts plat
  have hB := classLines_head Opts.ApplicationClassName (expectedResourcePrefix Opts)
  obtain ⟨r1, r2⟩ := submitUntilFailure_success I hI
    [(synthesize plat fs I Opts (localHome Opts) (sessionAfterPreconditions plat I Opts S)).1,
      contextStatement, applicationStatement, runStatement]
    (synthesize plat fs I Opts (localHome Opts) (sessionAfterPreconditions plat I Opts S)).2
  rw [synthesize_submitted, sessionAfterPreconditions_submitted] at r2
  refine ⟨cmdPreamble plat [] ++
    (classDeclaration Opts.ApplicationClassName (expectedResourcePrefix Opts) ++ NL),
    ?_, ?_, ?_, ?_, ?_⟩
  · rw [Urho3DMain_of_preconditionsPass plat fs I Opts S hp]
    exact r1
  · rw [Urho3DMain_of_preconditionsPass plat fs I Opts S hp]
    rw [← hcmd]
    exact r2
  · intro d hd
    rw [hlines, count_of_head_hash _ _ d (f2 d hd).2 hB]
    exact (f2 d hd).1
  · rw [hlines, count_of_head_hash _ _ _ f3.2 hB]
    exact f3.1
  · intro l hl hpre
    rw [hlines] at hl
    rcases List.mem_append.mp hl with h | h
    · exact f4 l h hpre
    · obtain ⟨t, rfl⟩ := hpre
      exact absurd rfl (hB _ h)

/-- Instance of C7: the home `\opt\\urho` of the snapshot, the empty directory `empty`
to load, the class name `App` and the stub interpreter. -/
theorem C7_end_to_end_empty_tree_witness :
    preconditionsPass Platform.other scenarioFS
      (scenarioOptions "\\opt\\\\urho" ["empty"] "" "App") ∧
    discoveredUnits scenarioFS
      (scenarioOptions "\\opt\\\\urho" ["empty"] "" "App").PathsToLoad = [] ∧
    '\n' ∉ (scenarioOptions "\\opt\\\\urho" ["empty"] "" "App").ApplicationClassName ∧
    '\n' ∉ expectedResourcePrefix (scenarioOptions "\\opt\\\\urho" ["empty"] "" "App") ∧
    ∃ cmd : Str,
      (Urho3DMain Platform.other scenarioFS stubInterpreter
        (scenarioOptions "\\opt\\\\urho" ["empty"] "" "App") (Session.start ())).1 = 0 ∧
      (Urho3DMain Platform.other scenarioFS stubInterpreter
        (scenarioOptions "\\opt\\\\urho" ["empty"] "" "App") (Session.start ())).2.submitted
        = [] ++
        [(cmd, CompilationResult.kSuccess), (contextStatement, CompilationResult.kSuccess),
         (applicationStatement, CompilationResult.kSuccess),
         (runStatement, CompilationResult.kSuccess)] ∧
      (∀ d ∈ fixedDefines, (splitLines cmd).count d = 1) ∧
      (splitLines cmd).count umbrellaInclude = 1 ∧
      (∀ l ∈ splitLines cmd, "#include".toList <+: l → l = umbrellaInclude) :=
  ⟨scenario_preconditionsPass _ _ _, by decide, by decide, by decide,
    C7_end_to_end_empty_tree Platform.other scenarioFS stubInterpreter
      (scenarioOptions "\\opt\\\\urho" ["empty"] "" "App") (Session.start ())
      (scenario_preconditionsPass _ _ _) rfl (by decide) (fun _ _ => rfl) (by decide)
      (by decide)⟩

/-! ## The include lines of the definition unit -/

theorem joinLines_append (a b : List Str) : joinLines (a ++ b) = joinLines a ++ joinLines b := by
  simp only [joinLines, List.map_append, List.flatten_append]

theorem cmdPreamble_eq_joinLines (plat : Platform) (Defines : List Str) :
    cmdPreamble plat Defines = joinLines (preambleLines plat Defines) := by
  have hd : (Defines.map fun define => "#define ".toList ++ define ++ NL).flatten
      = joinLines (Defines.map fun define => "#define ".toList ++ define) := by
    simp only [joinLines, List.map_map]
    rfl
  have hs : platformShims plat = joinLines (shimLines plat) := by
    cases plat <;>
      simp only [joinLines, platformShims, shimLines, List.map_cons, List.map_nil,
        List.flatten_cons, List.flatten_nil, List.append_nil, List.append_assoc]
  have hu : umbrellaInclude ++ NL = joinLines [umbrellaInclude] := by
    simp only [joinLines, List.map_cons, List.map_nil, List.flatten_cons, List.flatten_nil,
      List.append_nil]
  simp only [cmdPreamble, preambleLines, joinLines_append, hd, hs, hu]
  rfl

theorem includes_eq_joinLines (units : List Str) :
    (units.map includeLine).flatten = joinLines (units.map includeText) := by
  simp only [joinLines, List.map_map]
  rfl

theorem classDeclaration_eq_joinLines (cls dir : Str) :
    classDeclaration cls dir ++ NL = joinLines (classLines cls dir) := by
  simp only [joinLines, classLines, classDeclaration, List.map_cons, List.map_nil,
    List.flatten_cons, List.flatten_nil, List.append_assoc, List.nil_append, List.append_nil]

theorem preambleLines_no_newline (plat : Platform) (Defines : List Str)
    (hdef : ∀ d ∈ Defines, '\n' ∉ d) : ∀ l ∈ preambleLines plat Defines, '\n' ∉ l := by
  have hfix : ∀ l ∈ fixedDefines, '\n' ∉ l := by decide
  have hshim : ∀ l ∈ shimLines plat, '\n' ∉ l := by cases plat <;> decide
  intro l hl
  simp only [preambleLines, List.mem_append, List.mem_map, List.mem_singleton] at hl
  rcases hl with ((hl | ⟨d, hd, rfl⟩) | rfl) | hl
  · exact hfix l hl
  · simp only [List.mem_append, not_or]
    exact ⟨by decide, hdef d hd⟩
  · decide
  · exact hshim l hl

theorem preambleLines_not_quoteInclude (plat : Platform) (Defines : List Str) :
    ∀ l ∈ preambleLines plat Defines, isQuoteInclude l = false := by
  have hfix : ∀ l ∈ fixedDefines, isQuoteInclude l = false := by decide
  have hshim : ∀ l ∈ shimLines plat, isQuoteInclude l = false := by cases plat <;> decide
  intro l hl
  simp only [preambleLines, List.mem_append, List.mem_map, List.mem_singleton] at hl
  rcases hl with ((hl | ⟨d, _, rfl⟩) | rfl) | hl
  · exact hfix l hl
  · rfl
  · decide
  · exact hshim l hl

theorem includeText_quoteInclude (u : Str) : isQuoteInclude (includeText u) = true := by
  unfold isQuoteInclude includeText
  exact List.isPrefixOf_iff_prefix.mpr
    ((List.prefix_append _ u).trans (List.prefix_append _ _))

theorem classLines_not_quoteInclude (cls dir : Str) :
    ∀ l ∈ classLines cls dir ++ [[]], isQuoteInclude l = false := by
  intro l hl
  cases h : isQuoteInclude l with
  | false => rfl
  | true =>
    obtain ⟨t, rfl⟩ := List.isPrefixOf_iff_prefix.mp h
    exact absurd rfl (classLines_head cls dir _ hl)

theorem includeText_injective (a b : Str) (h : includeText a = includeText b) : a = b := by
  unfold includeText at h
  simp only [List.append_assoc] at h
  exact List.append_cancel_right (List.append_cancel_left h)

/-- The lines of a definition unit whose defines, compilation-unit paths, class name and
resource directory hold no line break, and which of them are quoted include lines. -/
theorem definitionUnit_include_lines (plat : Platform) (Defines units : List Str)
    (cls dir : Str) (hdef : ∀ d ∈ Defines, '\n' ∉ d) (hunits : ∀ u ∈ units, '\n' ∉ u)
    (hcls : '\n' ∉ cls) (hdir : '\n' ∉ dir) :
    splitLines (cmdPreamble plat Defines ++ (units.map includeLine).flatten
        ++ (classDeclaration cls dir ++ NL))
      = preambleLines plat Defines ++ units.map includeText ++ (classLines cls dir ++ [[]]) ∧
    (splitLines (cmdPreamble plat Defines ++ (units.map includeLine).flatten
        ++ (classDeclaration cls dir ++ NL))).filter isQuoteInclude
      = units.map includeText := by
  have hlines : splitLines (cmdPreamble plat Defines ++ (units.map includeLine).flatten
        ++ (classDeclaration cls dir ++ NL))
      = preambleLines plat Defines ++ units.map includeText
          ++ (classLines cls dir ++ [[]]) := by
    rw [cmdPreamble_eq_joinLines, includes_eq_joinLines, classDeclaration_eq_joinLines,
      ← joinLines_append, ← joinLines_append, splitLines_joinLines]
    · simp only [List.append_assoc]
    intro l hl
    rcases List.mem_append.mp hl with h | h
    · rcases List.mem_append.mp h with h | h
      · exact preambleLines_no_newline plat Defines hdef l h
      · obtain ⟨u, hu, rfl⟩ := List.mem_map.mp h
        simp only [includeText, List.mem_append, not_or]
        exact ⟨⟨by decide, hunits u hu⟩, by decide⟩
    · exact classLines_no_newline cls dir hcls hdir l h
  refine ⟨hlines, ?_⟩
  have h1 : (preambleLines plat Defines).filter isQuoteInclude = [] :=
    List.filter_eq_nil_iff.mpr (fun l hl => by
      simp [preambleLines_not_quoteInclude plat Defines l hl])
  have h2 : (classLines cls dir ++ [[]]).filter isQuoteInclude = [] :=
    List.filter_eq_nil_iff.mpr (fun l hl => by
      simp [classLines_not_quoteInclude cls dir l hl])
  have h3 : (units.map includeText).filter isQuoteInclude = units.map includeText :=
    List.filter_eq_self.mpr (fun l hl => by
      obtain ⟨u, _, rfl⟩ := List.mem_map.mp hl
      exact includeText_quoteInclude u)
  rw [hlines, List.filter_append, List.filter_append, h1, h2, h3, List.nil_append,
    List.append_nil]

/-- The text submitted first behind a precondition block that passes. -/
theorem Urho3DMain_definitionUnit {σ : Type} (plat : Platform) (fs : FileSystem)
    (I : Interpreter σ) (Opts : InvocationOptions) (S : Session σ)
    (hp : preconditionsPass plat fs Opts) :
    ∃ (r : CompilationResult) (rest : List (Str × CompilationResult)),
      (Urho3DMain plat fs I Opts S).2.submitted = S.submitted ++
        (cmdPreamble plat Opts.Defines
          ++ ((discoveredUnits fs Opts.PathsToLoad).map includeLine).flatten
          ++ (classDeclaration Opts.ApplicationClassName (expectedResourcePrefix Opts) ++ NL),
         r) :: rest := by
  rw [Urho3DMain_of_preconditionsPass plat fs I Opts S hp]
  obtain ⟨r, rest, h⟩ := runStages_first I
    (synthesize plat fs I Opts (localHome Opts) (sessionAfterPreconditions plat I Opts S)).1
    (synthesize plat fs I Opts (localHome Opts) (sessionAfterPreconditions plat I Opts S)).2
  rw [synthesize_submitted, sessionAfterPreconditions_submitted] at h
  refine ⟨r, rest, ?_⟩
  rw [show synthesizeAndRun plat fs I Opts (localHome Opts)
      (sessionAfterPreconditions plat I Opts S) = runStages I
    (synthesize plat fs I Opts (localHome Opts) (sessionAfterPreconditions plat I Opts S)).1
    (synthesize plat fs I Opts (localHome Opts) (sessionAfterPreconditions plat I Opts S)).2
    from rfl, h]
  simp only [synthesize, loadPaths_cmd, urho3dResourceDir_eq]

/-- C8 as stated fails on the code: defines, paths, class name and resource prefix are
copied into the text as they are, so a line break in one of them makes lines of its own.
With the class name `App`, a line break and `#include "root/b.h"`, the text submitted
first holds an include line for the discovered header `root/b.h`; so it does with such a
define, and with such a resource-prefix override. And with a file whose name is `b.h`, a
double quote, a line break and `#include "zzz.c` (extension `.c`) the single discovered
compilation unit makes two quoted include lines, the first of which names the discovered
header `odd/b.h`. -/
theorem C8_counterexample :
    ("root/b.h".toList ∈ discoveredHeaders scenarioFS ["root".toList] ∧
      includeText "root/b.h".toList ∈
        splitLines (firstSubmitted (Urho3DMain Platform.other scenarioFS stubInterpreter
          (scenarioOptions "\\opt\\\\urho" ["root"] "" "App\n#include \"root/b.h\"")
          (Session.start ())).2)) ∧
    (includeText "root/b.h".toList ∈
        splitLines (firstSubmitted (Urho3DMain Platform.other scenarioFS stubInterpreter
          { Urho3DHome := [], Defines := ["X\n#include \"root/b.h\"".toList],
            PathsToLoad := ["root".toList], Urho3DResourcePrefixPath := [],
            ApplicationClassName := "App".toList }
          (Session.start ())).2)) ∧
    (includeText "root/b.h".toList ∈
        splitLines (firstSubmitted (Urho3DMain Platform.other scenarioFS stubInterpreter
          (scenarioOptions "\\opt\\\\urho" ["root"] "res\n#include \"root/b.h\"\n" "App")
          (Session.start ())).2)) ∧
    (discoveredUnits oddFS ["odd".toList] = ["odd/b.h\"\n#include \"zzz.c".toList] ∧
      "odd/b.h".toList ∈ discoveredHeaders oddFS ["odd".toList] ∧
      (splitLines (firstSubmitted (Urho3DMain Platform.other oddFS stubInterpreter
          (scenarioOptions "\\opt\\\\urho" ["odd"] "" "App")
          (Session.start ())).2)).filter isQuoteInclude
        = [includeText "odd/b.h".toList, includeText "zzz.c".toList]) := by
  decide

/-- C8, amended: behind a precondition block that passes, and when no caller-supplied
define, no discovered compilation-unit path, and neither the class name nor the
resource-prefix string holds a line break, the text `Urho3DMain` submits first is the
preamble, one `#include "..."` line per discovered compilation unit and the class
declaration; its lines are the preamble lines (macros, umbrella include, platform shims),
then these include lines, then the lines of the class declaration; the lines that start
with `#include "` are exactly the include lines of the discovered compilation units, one
per unit, in their order; and no discovered header path has an include line in the text.
The compilation units are taken directory by directory in the order of paths-to-load: an
entry that is not a directory adds nothing, a directory adds the `files` vector the
scanner returns for it, in scan order, and its `headers` vector counts as discovered
headers. -/
theorem C8_source_includes {σ : Type} (plat : Platform) (fs : FileSystem)
    (I : Interpreter σ) (Opts : InvocationOptions) (S : Session σ)
    (hp : preconditionsPass plat fs Opts)
    (hdef : ∀ d ∈ Opts.Defines, '\n' ∉ d)
    (hunits : ∀ u ∈ discoveredUnits fs Opts.PathsToLoad, '\n' ∉ u)
    (hcls : '\n' ∉ Opts.ApplicationClassName)
    (hdir : '\n' ∉ expectedResourcePrefix Opts) :
    (∃ (cmd : Str) (r : CompilationResult) (rest : List (Str × CompilationResult)),
      (Urho3DMain plat fs I Opts S).2.submitted = S.submitted ++ (cmd, r) :: rest ∧
      cmd = cmdPreamble plat Opts.Defines
          ++ ((discoveredUnits fs Opts.PathsToLoad).map includeLine).flatten
          ++ (classDeclaration Opts.ApplicationClassName (expectedResourcePrefix Opts) ++ NL) ∧
      splitLines cmd = preambleLines plat Opts.Defines
          ++ (discoveredUnits fs Opts.PathsToLoad).map includeText
          ++ (classLines Opts.ApplicationClassName (expectedResourcePrefix Opts) ++ [[]]) ∧
      (splitLines cmd).filter isQuoteInclude
        = (discoveredUnits fs Opts.PathsToLoad).map includeText ∧
      (∀ h ∈ discoveredHeaders fs Opts.PathsToLoad, includeText h ∉ splitLines cmd)) ∧
    (discoveredUnits fs [] = [] ∧ discoveredHeaders fs [] = []) ∧
    (∀ (path : Str) (paths : List Str), fs.directory path = none →
      discoveredUnits fs (path :: paths) = discoveredUnits fs paths ∧
      discoveredHeaders fs (path :: paths) = discoveredHeaders fs paths) ∧
    (∀ (path : Str) (paths : List Str) (listing : DirListing) (S1 : Session σ),
      fs.directory path = some listing →
      discoveredUnits fs (path :: paths) =
        (getSourceCodeFilesInDirectory I path listing
          { session := S1, files := [], headers := [] }).files
          ++ discoveredUnits fs paths ∧
      discoveredHeaders fs (path :: paths) =
        (getSourceCodeFilesInDirectory I path listing
          { session := S1, files := [], headers := [] }).headers
          ++ discoveredHeaders fs paths) := by
  refine ⟨?_, ⟨rfl, rfl⟩, ?_, ?_⟩
  · obtain ⟨r, rest, h⟩ := Urho3DMain_definitionUnit plat fs I Opts S hp
    obtain ⟨hlines, hfilter⟩ := definitionUnit_include_lines plat Opts.Defines
      (discoveredUnits fs Opts.PathsToLoad) Opts.ApplicationClassName
      (expectedResourcePrefix Opts) hdef hunits hcls hdir
    refine ⟨_, r, rest, h, rfl, hlines, hfilter, ?_⟩
    intro hd hh hmem
    have hq : includeText hd ∈ (splitLines (cmdPreamble plat Opts.Defines
        ++ ((discoveredUnits fs Opts.PathsToLoad).map includeLine).flatten
        ++ (classDeclaration Opts.ApplicationClassName (expectedResourcePrefix Opts)
          ++ NL))).filter isQuoteInclude :=
      List.mem_filter.mpr ⟨hmem, includeText_quoteInclude hd⟩
    rw [hfilter] at hq
    obtain ⟨u, hu, he⟩ := List.mem_map.mp hq
    have := includeText_injective _ _ he
    subst this
    obtain ⟨p1, l1, h1⟩ := mem_discoveredUnits fs _ _ hu
    obtain ⟨p2, l2, h2⟩ := mem_discoveredHeaders fs _ _ hh
    exact units_headers_disjoint l1 l2 p1 p2 _ h1 h2
  · intro path paths hd
    exact ⟨discoveredUnits_skip fs path paths hd, discoveredHeaders_skip fs path paths hd⟩
  · intro path paths listing S1 hd
    rw [scan_eq]
    exact ⟨by simpa using discoveredUnits_dir fs path paths listing hd,
      by simpa using discoveredHeaders_dir fs path paths listing hd⟩

/-- Instance of C8: with the paths-to-load `nowhere` (not a directory), `root` (the
scenario tree) and `empty`, the quoted include lines of the text submitted first are
those of `root/a.cpp` and `root/sub/c.cc`, in this order. -/
theorem C8_source_includes_witness :
    preconditionsPass Platform.other scenarioFS
      (scenarioOptions "\\opt\\\\urho" ["nowhere", "root", "empty"] "" "App") ∧
    discoveredUnits scenarioFS ["nowhere".toList, "root".toList, "empty".toList]
      = ["root/a.cpp".toList, "root/sub/c.cc".toList] ∧
    (splitLines (firstSubmitted (Urho3DMain Platform.other scenarioFS stubInterpreter
        (scenarioOptions "\\opt\\\\urho" ["nowhere", "root", "empty"] "" "App")
        (Session.start ())).2)).filter isQuoteInclude
      = ["#include \"root/a.cpp\"".toList, "#include \"root/sub/c.cc\"".toList] ∧
    ∃ (cmd : Str) (r : CompilationResult) (rest : List (Str × CompilationResult)),
      (Urho3DMain Platform.other scenarioFS stubInterpreter
        (scenarioOptions "\\opt\\\\urho" ["nowhere", "root", "empty"] "" "App")
        (Session.start ())).2.submitted = [] ++ (cmd, r) :: rest ∧
      (splitLines cmd).filter isQuoteInclude
        = (discoveredUnits scenarioFS ["nowhere".toList, "root".toList, "empty".toList]).map
            includeText :=
  ⟨scenario_preconditionsPass _ _ _, by decide, by decide,
    (C8_source_includes Platform.other scenarioFS stubInterpreter
      (scenarioOptions "\\opt\\\\urho" ["nowhere", "root", "empty"] "" "App")
      (Session.start ()) (scenario_preconditionsPass _ _ _) (by decide) (by decide)
      (by decide) (by decide)).1.imp fun _ h => h.imp fun _ h => h.imp fun _ h =>
        ⟨h.1, h.2.2.2.1⟩⟩

/-! ## The diagnostic reconciler -/

/-- C9: a call of `checkDiagErrors` in verify mode, made while a source-file scope is
open, meets no unbalanced-scope condition and leaves as many scopes open as before (the
scope it ends is begun again), having flushed the verifier-detected mismatches into the
error count it reports; afterwards the end-scope matching the re-opened scope succeeds,
and so does a further begin-scope/end-scope pair, which again leaves the number of open
scopes unchanged. -/
theorem C9_verify_mode_rebalancing (Client : DiagnosticConsumer)
    (hopen : 0 < Client.ActiveSourceFiles) :
    ∃ (status : Int) (Errs : Nat) (Client1 : DiagnosticConsumer),
      checkDiagErrors true Client = some (status, Errs, Client1) ∧
      Client1.ActiveSourceFiles = Client.ActiveSourceFiles ∧
      Errs = Client.NumErrors + Client.unflushed ∧
      Client1.NumErrors = Errs ∧
      (status = EXIT_FAILURE ↔ Errs ≠ 0) ∧
      (∃ Client2, Client1.EndSourceFile = some Client2) ∧
      (∃ Client2, Client1.BeginSourceFile.EndSourceFile = some Client2 ∧
        Client2.ActiveSourceFiles = Client.ActiveSourceFiles) := by
  have hne : Client.ActiveSourceFiles ≠ 0 := by omega
  refine ⟨if Client.NumErrors + Client.unflushed ≠ 0 then EXIT_FAILURE else EXIT_SUCCESS,
    Client.NumErrors + Client.unflushed,
    { NumErrors := Client.NumErrors + Client.unflushed,
      ActiveSourceFiles := Client.ActiveSourceFiles - 1 + 1,
      unflushed := 0 }, ?_, ?_, rfl, rfl, ?_, ?_, ?_⟩
  · simp only [checkDiagErrors, DiagnosticConsumer.EndSourceFile, if_neg hne, if_true,
      DiagnosticConsumer.BeginSourceFile]
  · show Client.ActiveSourceFiles - 1 + 1 = Client.ActiveSourceFiles
    omega
  · by_cases h : Client.NumErrors + Client.unflushed = 0
    · simp [h, EXIT_FAILURE, EXIT_SUCCESS]
    · simp [h, EXIT_FAILURE, EXIT_SUCCESS]
  · simp [DiagnosticConsumer.EndSourceFile, DiagnosticConsumer.BeginSourceFile]
  · simp only [DiagnosticConsumer.EndSourceFile, DiagnosticConsumer.BeginSourceFile]
    rw [if_neg (by omega)]
    refine ⟨_, rfl, ?_⟩
    show Client.ActiveSourceFiles - 1 + 1 + 1 - 1 = Client.ActiveSourceFiles
    omega

/-- Instance of C9: one open scope, two errors counted and three mismatches not yet
flushed; the call reports five errors and failure and leaves one scope open. -/
theorem C9_verify_mode_rebalancing_witness :
    0 < ({ NumErrors := 2, ActiveSourceFiles := 1, unflushed := 3 } :
      DiagnosticConsumer).ActiveSourceFiles ∧
    checkDiagErrors true { NumErrors := 2, ActiveSourceFiles := 1, unflushed := 3 }
      = some (EXIT_FAILURE, 5, { NumErrors := 5, ActiveSourceFiles := 1, unflushed := 0 }) ∧
    ∃ (status : Int) (Errs : Nat) (Client1 : DiagnosticConsumer),
      checkDiagErrors true { NumErrors := 2, ActiveSourceFiles := 1, unflushed := 3 }
        = some (status, Errs, Client1) ∧
      Client1.ActiveSourceFiles = 1 ∧
      ∃ Client2, Client1.BeginSourceFile.EndSourceFile = some Client2 ∧
        Client2.ActiveSourceFiles = 1 :=
  ⟨by decide, by decide,
    (C9_verify_mode_rebalancing { NumErrors := 2, ActiveSourceFiles := 1, unflushed := 3 }
      (by decide)).imp fun _ h => h.imp fun _ h => h.imp fun _ h =>
        ⟨h.1, h.2.1, h.2.2.2.2.2.2⟩⟩

/-! ## Claims on the result of `fixPath` -/

/-- C1 fails on the code: `fixPath("a///b")` is `"a//b"`, and `fixPath` of that is
`"a/b"`, so normalising twice differs from normalising once. In general normalising twice
equals normalising once exactly when the first result has no doubled slash, which is the
case whenever the path, backslashes counted as slashes, has no run of three slashes. -/
theorem C1_fixPath_not_idempotent :
    fixPath "a///b".toList = "a//b".toList ∧
    fixPath (fixPath "a///b".toList) = "a/b".toList ∧
    fixPath (fixPath "a///b".toList) ≠ fixPath "a///b".toList ∧
    (∀ path : Str,
      fixPath (fixPath path) = fixPath path ↔ noDoubleSlash (fixPath path) = true) ∧
    (∀ path : Str, noTripleSlash (slashify path) = true →
      fixPath (fixPath path) = fixPath path) :=
  ⟨by decide, by decide, by decide, fixPath_idempotent_iff,
    fun path h => (fixPath_of_noTripleSlash path h).2⟩

/-- C2 on the code: the result of `fixPath` never contains a backslash and
`fixPath("") = ""`, but `fixPath("a///b")` is `"a//b"`, which still contains two
consecutive slashes. The result is free of doubled slashes whenever the path,
backslashes counted as slashes, has no run of three slashes. -/
theorem C2_fixPath_leaves_double_slash :
    (∀ path : Str, '\\' ∉ fixPath path) ∧
    fixPath [] = [] ∧
    fixPath "a///b".toList = "a//b".toList ∧
    "//".toList <:+: fixPath "a///b".toList ∧
    noDoubleSlash (fixPath "a///b".toList) = false ∧
    (∀ path : Str, noTripleSlash (slashify path) = true →
      noDoubleSlash (fixPath path) = true) :=
  ⟨fun path h => (mem_fixPath _ path h).1 rfl, by decide, by decide,
    ⟨"a".toList, "b".toList, by decide⟩, by decide,
    fun path h => (fixPath_of_noTripleSlash path h).1⟩

end Cling
